import Mathlib

/-!
# QRFS — a shallow embedding of the core filesystem (src/file_system/src/lib.rs)

Bytes are modelled as `Nat` (values < 256 by construction of every producer).
The backing file is modelled at block granularity: every read and write the
source performs is block-aligned (`write_block`/`read_block` at
`block_idx * BLOCK_SIZE`, the bitmap at block 0, the inode-counter cell at
the start of block 1), so a block-indexed store is a faithful view of the
byte-addressed file.  Rust `panic!`/`unwrap` paths are modelled as `none`,
`std::io` failures of the in-memory file as `Except`-style error values.
-/

set_option maxRecDepth 100000

namespace QRFS

/-! ## Little-endian byte helpers -/

/-- Value of a little-endian byte list (`u64::from_le_bytes` and friends). -/
def leVal : List Nat → Nat
  | [] => 0
  | b :: bs => b % 256 + 256 * leVal bs

/-- `n`-byte little-endian encoding of `v` (`to_le_bytes`, truncating like the
Rust fixed-width integer it encodes). -/
def leBytes : Nat → Nat → List Nat
  | 0, _ => []
  | n + 1, v => v % 256 :: leBytes n (v / 256)

theorem leBytes_length (n v : Nat) : (leBytes n v).length = n := by
  induction n generalizing v with
  | zero => rfl
  | succ n ih => simp [leBytes, ih]

/-- Bounds-checked slice of a byte buffer: `buf[off .. off+len]`.  Rust
panics when the range escapes the buffer; we return `none` there. -/
def slice? (l : List Nat) (off len : Nat) : Option (List Nat) :=
  if off + len ≤ l.length then some ((l.drop off).take len) else none

/-! ## Constants (src/file_system/src/lib.rs lines 22–27) -/

def BLOCK_COUNT : Nat := 2048
def BLOCK_SIZE : Nat := 512
def MAX_NAME_SIZE : Nat := 25
def BITMAP_START : Nat := 0
def INODE_COUNTER_START : Nat := 1
def DATA_START : Nat := 2

/-! ## Bitmap primitives (`bitmap_get`, `bitmap_set_bit`, `bitmap_clear_bit`) -/

/-- `(bitmap[idx/8] & (1 << (idx%8))) != 0`, `false` when the byte index is
out of range — exactly `bitmap_get`. -/
def bitmapGet (bm : List Nat) (idx : Nat) : Bool :=
  if idx / 8 < bm.length then Nat.testBit (bm.getD (idx / 8) 0) (idx % 8) else false

/-- `bitmap[idx/8] |= 1 << (idx%8)` guarded by the byte-index bound
(`List.set` is the identity out of range, as is the source's guard). -/
def bitmapSetBit (bm : List Nat) (idx : Nat) : List Nat :=
  bm.set (idx / 8) (bm.getD (idx / 8) 0 ||| (1 <<< (idx % 8)))

/-- `bitmap[idx/8] &= !(1 << (idx%8))` — the `u8` complement of the mask is
`255 ^^^ (1 <<< bit)`. -/
def bitmapClearBit (bm : List Nat) (idx : Nat) : List Nat :=
  bm.set (idx / 8) (bm.getD (idx / 8) 0 &&& (255 ^^^ (1 <<< (idx % 8))))

/-! ## The backing file at block granularity

A disk is the list of blocks that have been written, most recent write
first; blocks never written read back as zeros (`initialize_new_disk`
truncates the file to `N·B` zero bytes). -/

def zeros512 : List Nat := List.replicate 512 0

/-- Written blocks of the backing file, keyed by block index. -/
def DiskM : Type := List (Nat × List Nat)

instance : DecidableEq DiskM := by
  unfold DiskM; infer_instance

/-- Last write to block `i`, if any. -/
def diskFind (d : DiskM) (i : Nat) : Option (List Nat) :=
  (d.find? (fun p => p.1 == i)).map (·.2)

/-- Overwrite block `i` with `bytes`. -/
def diskStore (d : DiskM) (i : Nat) (bytes : List Nat) : DiskM :=
  (i, bytes) :: d.filter (fun p => p.1 ≠ i)

/-- `read_block`: the 512 bytes of block `i` (zeros if never written). -/
def readBlockD (d : DiskM) (i : Nat) : List Nat :=
  (diskFind d i).getD zeros512

/-- `read_bitmap`: the 512 bytes of block 0. -/
def readBitmapD (d : DiskM) : List Nat := readBlockD d BITMAP_START

/-- `write_bitmap`: rewrite block 0. -/
def writeBitmapD (d : DiskM) (bm : List Nat) : DiskM := diskStore d BITMAP_START bm

/-- `write_block`: rejects payloads over one block, zero-pads the rest. -/
def writeBlockD (d : DiskM) (i : Nat) (data : List Nat) : Option DiskM :=
  if data.length > BLOCK_SIZE then none
  else some (diskStore d i (data ++ List.replicate (BLOCK_SIZE - data.length) 0))

/-- A failed `write_block` whose error the caller discards (`let _ = ...`). -/
def writeBlockLenient (d : DiskM) (i : Nat) (data : List Nat) : DiskM :=
  (writeBlockD d i data).getD d

/-- `write_u64(f, INODE_COUNTER_START * BLOCK_SIZE, v)`: the first 8 bytes of
block 1. -/
def writeCounterCell (d : DiskM) (v : Nat) : DiskM :=
  diskStore d INODE_COUNTER_START (leBytes 8 v ++ (readBlockD d INODE_COUNTER_START).drop 8)

/-- `allocate_block`: first clear bit from `DATA_START`, set it, rewrite the
bitmap; `none` models exhaustion (`Ok(None)` in the source). -/
def allocateBlock (d : DiskM) : Option (DiskM × Nat) :=
  let bm := readBitmapD d
  match (List.range' DATA_START (BLOCK_COUNT - DATA_START)).find? (fun b => !bitmapGet bm b) with
  | some b => some (writeBitmapD d (bitmapSetBit bm b), b)
  | none => none

/-- `free_block`: clear the bit, rewrite the bitmap. -/
def freeBlock (d : DiskM) (idx : Nat) : DiskM :=
  writeBitmapD d (bitmapClearBit (readBitmapD d) idx)

/-- `initialize_new_disk`: zero file, counter cell 0, bits 0 and 1 set. -/
def initializeNewDisk : DiskM :=
  writeBitmapD (writeCounterCell [] 0) (bitmapSetBit (bitmapSetBit zeros512 0) 1)

/-! ## File attributes and entries -/

/-- `std::time::SystemTime` relative to the epoch. -/
structure Time where
  sec : Nat
  nsec : Nat
deriving DecidableEq, Repr, Inhabited

/-- `fuser::FileType`. -/
inductive FType where
  | namedPipe | charDevice | blockDevice | directory | regularFile | symlink | socket
deriving DecidableEq, Repr, Inhabited

/-- `fuser::FileAttr` with times as epoch offsets. -/
structure FileAttrM where
  ino : Nat
  size : Nat
  blocks : Nat
  atime : Time
  mtime : Time
  ctime : Time
  crtime : Time
  kind : FType
  perm : Nat
  nlink : Nat
  uid : Nat
  gid : Nat
  rdev : Nat
  flags : Nat
  blksize : Nat
deriving DecidableEq, Repr, Inhabited

/-- `to_seconds`. -/
def toSeconds (t : Time) : Nat := t.sec

/-- `u64_to_systemtime` — sub-second part is lost (zero). -/
def u64ToSystemtime (s : Nat) : Time := ⟨s, 0⟩

/-- `get_default_attrs`, with `SystemTime::now()` passed in as `now`. -/
def getDefaultAttrs (fileInode size : Nat) (isFolder : Bool) (now : Time) : FileAttrM :=
  { ino := fileInode, size := size, blocks := 0
    atime := now, mtime := now, ctime := now, crtime := now
    kind := if isFolder then .directory else .regularFile
    perm := 0o755, nlink := 0, uid := 0, gid := 0, rdev := 0, flags := 0, blksize := 4096 }

/-- `FSEntry`; `name` is the fixed 25-byte zero-padded buffer. -/
structure FSEntry where
  inode : Nat
  name : List Nat
  data : Option (List Nat)
  parent : Nat
  children : List Nat
  attrs : FileAttrM
deriving DecidableEq, Repr, Inhabited

/-- `fixed_name`: first 25 bytes of the UTF-8 name, zero-padded to 25. -/
def fixedName (s : List Nat) : List Nat :=
  s.take MAX_NAME_SIZE ++ List.replicate (MAX_NAME_SIZE - s.length) 0

/-! UTF-8 validity, as `std::str::from_utf8` checks it. -/

/-- Is `b` a UTF-8 continuation byte in `[lo, hi]`? -/
def contIn (b lo hi : Nat) : Bool := lo ≤ b && b ≤ hi

/-- Rust `str::from_utf8` validity of a byte sequence. -/
def isValidUtf8 : List Nat → Bool
  | [] => true
  | b :: rest =>
    if b < 0x80 then isValidUtf8 rest
    else if 0xC2 ≤ b && b ≤ 0xDF then
      match rest with
      | c1 :: rest' => contIn c1 0x80 0xBF && isValidUtf8 rest'
      | [] => false
    else if b == 0xE0 then
      match rest with
      | c1 :: c2 :: rest' => contIn c1 0xA0 0xBF && contIn c2 0x80 0xBF && isValidUtf8 rest'
      | _ => false
    else if b == 0xED then
      match rest with
      | c1 :: c2 :: rest' => contIn c1 0x80 0x9F && contIn c2 0x80 0xBF && isValidUtf8 rest'
      | _ => false
    else if (0xE1 ≤ b && b ≤ 0xEC) || b == 0xEE || b == 0xEF then
      match rest with
      | c1 :: c2 :: rest' => contIn c1 0x80 0xBF && contIn c2 0x80 0xBF && isValidUtf8 rest'
      | _ => false
    else if b == 0xF0 then
      match rest with
      | c1 :: c2 :: c3 :: rest' =>
        contIn c1 0x90 0xBF && contIn c2 0x80 0xBF && contIn c3 0x80 0xBF && isValidUtf8 rest'
      | _ => false
    else if 0xF1 ≤ b && b ≤ 0xF3 then
      match rest with
      | c1 :: c2 :: c3 :: rest' =>
        contIn c1 0x80 0xBF && contIn c2 0x80 0xBF && contIn c3 0x80 0xBF && isValidUtf8 rest'
      | _ => false
    else if b == 0xF4 then
      match rest with
      | c1 :: c2 :: c3 :: rest' =>
        contIn c1 0x80 0x8F && contIn c2 0x80 0xBF && contIn c3 0x80 0xBF && isValidUtf8 rest'
      | _ => false
    else false

/-- `fixed_name_to_str`: bytes before the first NUL (all 25 if none),
decoded as UTF-8, with `""` on invalid UTF-8 (`unwrap_or("")`).  We keep
the result as its UTF-8 bytes. -/
def fixedNameToStr (buf : List Nat) : List Nat :=
  let pre := buf.takeWhile (fun b => b ≠ 0)
  if isValidUtf8 pre then pre else []

/-- `FSEntry::new`. -/
def FSEntry.new (fileInode : Nat) (fileName : List Nat) (fileData : Option (List Nat))
    (parentInode : Nat) (fileAttrs : FileAttrM) : FSEntry :=
  { inode := fileInode, name := fixedName fileName, data := fileData
    parent := parentInode, children := [], attrs := fileAttrs }

/-! ## Entry codec (disk form) -/

/-- `serialize_fs_entry_to_disk` — the exact little-endian field layout. -/
def serializeFsEntryToDisk (f : FSEntry) : List Nat :=
  leBytes 8 f.inode ++ leBytes 8 f.parent ++ f.name ++
  [if f.attrs.kind = .directory then 1 else 0] ++
  leBytes 2 f.attrs.perm ++
  leBytes 8 (toSeconds f.attrs.atime) ++ leBytes 8 (toSeconds f.attrs.mtime) ++
  leBytes 8 (toSeconds f.attrs.ctime) ++ leBytes 8 (toSeconds f.attrs.crtime) ++
  leBytes 4 f.attrs.blksize ++ leBytes 8 f.attrs.size ++
  (f.data.getD [])

/-- `deserialize_fs_entry`.  Every Rust slice access panics out of bounds;
those branches are `none` here. -/
def deserializeFsEntry (buf : List Nat) : Option FSEntry := do
  let inodeB ← slice? buf 0 8
  let parentB ← slice? buf 8 8
  let nameB ← slice? buf 16 MAX_NAME_SIZE
  let isDirB ← slice? buf 41 1
  let permB ← slice? buf 42 2
  let atimeB ← slice? buf 44 8
  let mtimeB ← slice? buf 52 8
  let ctimeB ← slice? buf 60 8
  let crtimeB ← slice? buf 68 8
  let blksizeB ← slice? buf 76 4
  let dataSizeB ← slice? buf 80 8
  let dataSize := leVal dataSizeB
  let dataB ← slice? buf 88 dataSize
  let attrs : FileAttrM :=
    { ino := leVal inodeB, size := dataSize, blocks := 0
      atime := u64ToSystemtime (leVal atimeB), mtime := u64ToSystemtime (leVal mtimeB)
      ctime := u64ToSystemtime (leVal ctimeB), crtime := u64ToSystemtime (leVal crtimeB)
      kind := if leVal isDirB ≠ 0 then .directory else .regularFile
      perm := leVal permB, nlink := 0, uid := 0, gid := 0, rdev := 0, flags := 0
      blksize := leVal blksizeB }
  some { inode := leVal inodeB, name := nameB
         data := if dataB.isEmpty then none else some dataB
         parent := leVal parentB, children := [], attrs := attrs }

/-! ## Association-list views of the two `HashMap`s -/

/-- `HashMap::get`. -/
def alookup {α : Type} (k : Nat) : List (Nat × α) → Option α
  | [] => none
  | (k', v) :: rest => if k' = k then some v else alookup k rest

/-- `HashMap::insert` (replace or add). -/
def ainsert {α : Type} (k : Nat) (v : α) (m : List (Nat × α)) : List (Nat × α) :=
  (k, v) :: m.filter (fun p => p.1 ≠ k)

/-- `HashMap::remove`. -/
def aerase {α : Type} (k : Nat) (m : List (Nat × α)) : List (Nat × α) :=
  m.filter (fun p => p.1 ≠ k)

/-- `HashMap::get_mut` followed by an update — identity when absent. -/
def amodify {α : Type} (k : Nat) (f : α → α) (m : List (Nat × α)) : List (Nat × α) :=
  m.map (fun p => if p.1 = k then (k, f p.2) else p)

/-! ## The in-memory filesystem (`QRFileSystem`) -/

/-- `QRFileSystem`: entry map, inode→block table, backing file, the separate
in-memory bitmap copy, and the process-wide `INODE_COUNTER`. -/
structure St where
  files : List (Nat × FSEntry)
  inodeBlockTable : List (Nat × Nat)
  disk : DiskM
  bitmap : List Nat
  counter : Nat
deriving DecidableEq

/-- Result of `QRFileSystem::push`: `ok`, an `io::Error` return whose partial
state survives (`write_block` failed after the maps were updated), or the
`.expect("No free blocks available")` panic. -/
inductive PushOut where
  | ok (s : St)
  | ioErr (s : St)
  | panicFull
deriving DecidableEq

/-- `QRFileSystem::push` (lib.rs 485–505), effects in source order. -/
def push (s : St) (inode : Nat) (fileName : List Nat) (data : Option (List Nat))
    (parentInode : Nat) (fileAttrs : FileAttrM) : PushOut :=
  let file := FSEntry.new inode fileName data parentInode fileAttrs
  let files1 := ainsert inode file s.files
  let serialized := serializeFsEntryToDisk file
  match allocateBlock s.disk with
  | none => .panicFull
  | some (d1, idx) =>
    let tbl := ainsert inode idx s.inodeBlockTable
    match writeBlockD d1 idx serialized with
    | none => .ioErr { s with files := files1, inodeBlockTable := tbl, disk := d1 }
    | some d2 =>
      let bm := bitmapSetBit s.bitmap idx
      let d3 := writeBitmapD d2 bm
      let files2 := amodify parentInode
        (fun p => { p with children := p.children ++ [inode] }) files1
      .ok { s with files := files2, inodeBlockTable := tbl, disk := d3, bitmap := bm }

/-- The child search shared by `rename`, `lookup`, `rmdir`: first inode in
`children` whose entry exists and whose displayed name equals `target`. -/
def findNamed (files : List (Nat × FSEntry)) (children : List Nat)
    (target : List Nat) : Option Nat :=
  children.find? (fun c =>
    match alookup c files with
    | some ce => fixedNameToStr ce.name == target
    | none => false)

/-- `QRFileSystem::rename` (lib.rs 507–540); `none` is the
`inode_block_table.get(..).unwrap()` panic. -/
def renameM (s : St) (oldParentInode : Nat) (fileOldName : List Nat)
    (newParentInode : Nat) (fileNewName : List Nat) : Option St :=
  let foundChildInode :=
    match alookup oldParentInode s.files with
    | some parentFile => findNamed s.files parentFile.children fileOldName
    | none => none
  match foundChildInode with
  | none => some s
  | some childInode =>
    let step1 : Option St :=
      match alookup childInode s.files with
      | some child =>
        let child' := { child with name := fixedName fileNewName, parent := newParentInode }
        let files1 := amodify childInode (fun _ => child') s.files
        match alookup childInode s.inodeBlockTable with
        | none => none
        | some blk =>
          some { s with files := files1
                        disk := writeBlockLenient s.disk blk (serializeFsEntryToDisk child') }
      | none => some s
    match step1 with
    | none => none
    | some s1 =>
      let files2 := amodify oldParentInode
        (fun p => { p with children := p.children.filter (fun x => x ≠ childInode) }) s1.files
      let files3 := amodify newParentInode
        (fun p => { p with children := p.children ++ [childInode] }) files2
      some { s1 with files := files3 }

/-! ## Kernel-op handlers (`impl Filesystem for QRFileSystem`) -/

/-- The `libc` error codes the handlers reply with. -/
inductive Errno where
  | enoent | eio | enotdir | enotempty | eacces | eisdir
deriving DecidableEq, Repr

/-- A handler's reply to the kernel. -/
inductive Reply where
  | attr (a : FileAttrM)
  | entry (a : FileAttrM)
  | created (a : FileAttrM) (fh : Nat)
  | dataR (d : List Nat)
  | written (n : Nat)
  | ok
  | err (e : Errno)
deriving DecidableEq, Repr

/-- `Filesystem::create` (lib.rs 942–966).  `name.to_str().unwrap()` panics
on invalid UTF-8 (`none`); `SystemTime::now()` is the `now` argument;
the inode counter is `fetch_add`ed and persisted to the counter cell. -/
def createOp (s : St) (parent : Nat) (name : List Nat) (now : Time) :
    Option (St × Reply) :=
  if ¬ isValidUtf8 name then none
  else
    let inode := s.counter
    let s0 := { s with counter := s.counter + 1, disk := writeCounterCell s.disk inode }
    match push s0 inode name none parent (getDefaultAttrs inode 0 false now) with
    | .panicFull => none
    | .ioErr s1 => some (s1, .err .eio)
    | .ok s1 =>
      match alookup inode s1.files with
      | some f => some (s1, .created f.attrs inode)
      | none => some (s1, .err .enoent)

/-- `Filesystem::mkdir` (lib.rs 1031–1048).  Invalid UTF-8 replies ENOENT;
after a successful push the entry is looked up with `unwrap` (`none` if
absent, which cannot happen). -/
def mkdirOp (s : St) (parent : Nat) (name : List Nat) (now : Time) :
    Option (St × Reply) :=
  if ¬ isValidUtf8 name then some (s, .err .enoent)
  else
    let inode := s.counter
    let s0 := { s with counter := s.counter + 1, disk := writeCounterCell s.disk inode }
    match push s0 inode name none parent (getDefaultAttrs inode 0 true now) with
    | .panicFull => none
    | .ioErr s1 => some (s1, .err .eio)
    | .ok s1 =>
      match alookup inode s1.files with
      | some f => some (s1, .entry f.attrs)
      | none => none

/-- `Filesystem::rmdir` (lib.rs 1050–1107). -/
def rmdirOp (s : St) (parent : Nat) (name : List Nat) : St × Reply :=
  if ¬ isValidUtf8 name then (s, .err .enoent)
  else
    match alookup parent s.files with
    | none => (s, .err .enoent)
    | some parentFile =>
      -- the loop returns at the first child whose displayed name matches
      match findNamed s.files parentFile.children name with
      | none => (s, .err .enoent)
      | some targetInode =>
        match alookup targetInode s.files with
        | none => (s, .err .enoent)   -- unreachable: findNamed only matches existing entries
        | some child =>
          if child.attrs.kind ≠ .directory then (s, .err .enotdir)
          else if ¬ child.children.isEmpty then (s, .err .enotempty)
          else
            let s1 :=
              match alookup targetInode s.inodeBlockTable with
              | some blockIdx =>
                { s with disk := freeBlock s.disk blockIdx
                         inodeBlockTable := aerase targetInode s.inodeBlockTable }
              | none => s
            let files1 := amodify parent
              (fun p => { p with children := p.children.filter (fun x => x ≠ targetInode) })
              s1.files
            ({ s1 with files := aerase targetInode files1 }, .ok)

/-- `Filesystem::read` (lib.rs 1109–1132).  The `_offset` and `_size`
arguments are received but never used: the whole buffer is replied. -/
def readOp (s : St) (ino : Nat) (offset : Nat) (size : Nat) : Reply :=
  match alookup ino s.files with
  | none => .err .enoent
  | some file =>
    if file.attrs.kind = .directory then .err .enoent
    else
      match file.data with
      | none => .dataR []
      | some d =>
        let _ := offset
        let _ := size
        .dataR d

/-- `buffer[offset..offset+data.len()].copy_from_slice(data)` — the caller
has resized the buffer so that `offset + data.length ≤ buffer.length`. -/
def writeRange (buf : List Nat) (offset : Nat) (data : List Nat) : List Nat :=
  buf.take offset ++ data ++ buf.drop (offset + data.length)

/-- The body of the write handler's buffer update: take data (`Some(vec![])`
if absent), zero-extend to `offset + data.len()` if short, copy `data` in at
`offset`, set `attrs.size` to the buffer length. -/
def writeUpdatedEntry (file : FSEntry) (offset : Nat) (data : List Nat) : FSEntry :=
  let buffer := file.data.getD []
  let required := offset + data.length
  let buffer1 :=
    if buffer.length < required then buffer ++ List.replicate (required - buffer.length) 0
    else buffer
  let buffer2 := writeRange buffer1 offset data
  { file with data := some buffer2
              attrs := { file.attrs with size := buffer2.length } }

/-- `Filesystem::write` (lib.rs 871–905).  `none` is the
`.expect("missing block")` panic; the `write_block` result is discarded
(`let _ =`), success is always replied with the full byte count. -/
def writeOp (s : St) (ino : Nat) (offset : Nat) (data : List Nat) :
    Option (St × Reply) :=
  match alookup ino s.files with
  | none => some (s, .err .enoent)
  | some file =>
    if file.attrs.kind = .directory then some (s, .err .enoent)
    else
      let file' := writeUpdatedEntry file offset data
      let files1 := amodify ino (fun _ => file') s.files
      match alookup ino s.inodeBlockTable with
      | none => none
      | some blockIdx =>
        some ({ s with files := files1
                       disk := writeBlockLenient s.disk blockIdx (serializeFsEntryToDisk file') },
              .written data.length)

/-- `Filesystem::rename` (lib.rs 864–869): delegate to the model `rename`
and reply `ok` unconditionally. -/
def renameOp (s : St) (parent : Nat) (name : List Nat) (newparent : Nat)
    (newname : List Nat) : Option (St × Reply) :=
  if ¬ (isValidUtf8 name ∧ isValidUtf8 newname) then none  -- to_str().unwrap()
  else (renameM s parent name newparent newname).map (fun s' => (s', .ok))

/-! ## The mounted root-only state

`mount.rs`/`mkfs.rs`: `initialize_new_disk`, `QRFileSystem::new` (reads the
bitmap from disk), `push(1, "/", None, 0, default dir attrs)`, counter := 2. -/

/-- UTF-8 bytes of `"/"`. -/
def rootNameBytes : List Nat := [47]

/-- The freshly created filesystem containing only the root directory, with
the root's creation time `t0`.  `none` never occurs (a fresh disk has free
blocks). -/
def mountedRoot (t0 : Time) : Option St :=
  let s0 : St := { files := [], inodeBlockTable := [], disk := initializeNewDisk
                   bitmap := readBitmapD initializeNewDisk, counter := 1 }
  match push s0 1 rootNameBytes none 0 (getDefaultAttrs 1 0 true t0) with
  | .ok s1 => some { s1 with counter := 2, disk := writeCounterCell s1.disk 2 }
  | _ => none

/-! ## Association-list lemmas -/

theorem alookup_cons {α : Type} (k a : Nat) (v : α) (rest : List (Nat × α)) :
    alookup k ((a, v) :: rest) = if a = k then some v else alookup k rest := rfl

theorem filter_ne_cons {α : Type} (k' a : Nat) (v : α) (rest : List (Nat × α)) :
    ((a, v) :: rest).filter (fun p => p.1 ≠ k') =
      if a = k' then rest.filter (fun p => p.1 ≠ k')
      else (a, v) :: rest.filter (fun p => p.1 ≠ k') := by
  by_cases h : a = k' <;> simp [List.filter_cons, h]

theorem amodify_cons {α : Type} (k' : Nat) (f : α → α) (a : Nat) (v : α)
    (rest : List (Nat × α)) :
    amodify k' f ((a, v) :: rest) =
      (if a = k' then (k', f v) else (a, v)) :: amodify k' f rest := rfl

theorem alookup_filter_ne {α : Type} (k k' : Nat) (m : List (Nat × α)) :
    alookup k (m.filter (fun p => p.1 ≠ k')) = if k' = k then none else alookup k m := by
  induction m with
  | nil => simp [alookup]
  | cons p rest ih =>
    obtain ⟨a, v⟩ := p
    rw [filter_ne_cons]
    by_cases hak' : a = k'
    · subst hak'
      rw [if_pos rfl, ih, alookup_cons]
      by_cases hk : a = k
      · subst hk; simp
      · simp [hk]
    · rw [if_neg hak', alookup_cons, alookup_cons]
      by_cases hak : a = k
      · subst hak
        rw [if_pos rfl, if_pos rfl, if_neg (fun hh => hak' hh.symm)]
      · rw [if_neg hak, if_neg hak, ih]

theorem alookup_ainsert_self {α : Type} (k : Nat) (v : α) (m : List (Nat × α)) :
    alookup k (ainsert k v m) = some v := by
  simp [ainsert, alookup]

theorem alookup_ainsert_ne {α : Type} {k k' : Nat} (v : α) (m : List (Nat × α))
    (h : k' ≠ k) : alookup k (ainsert k' v m) = alookup k m := by
  have hne : ¬ k' = k := h
  simp only [ainsert, alookup, if_neg hne]
  rw [alookup_filter_ne, if_neg hne]

theorem alookup_aerase {α : Type} (k k' : Nat) (m : List (Nat × α)) :
    alookup k (aerase k' m) = if k' = k then none else alookup k m :=
  alookup_filter_ne k k' m

theorem alookup_amodify {α : Type} (k k' : Nat) (f : α → α) (m : List (Nat × α)) :
    alookup k (amodify k' f m) =
      if k' = k then (alookup k m).map f else alookup k m := by
  induction m with
  | nil => simp [amodify, alookup]
  | cons p rest ih =>
    obtain ⟨a, v⟩ := p
    rw [amodify_cons]
    by_cases hak' : a = k'
    · subst hak'
      rw [if_pos rfl, alookup_cons, alookup_cons]
      by_cases hk : a = k
      · subst hk; simp
      · simp [hk, ih]
    · rw [if_neg hak', alookup_cons, alookup_cons]
      by_cases hak : a = k
      · subst hak
        rw [if_pos rfl, if_pos rfl, if_neg (fun hh => hak' hh.symm)]
      · rw [if_neg hak, if_neg hak, ih]

theorem alookup_amodify_ne {α : Type} {k k' : Nat} (f : α → α) (m : List (Nat × α))
    (h : k' ≠ k) : alookup k (amodify k' f m) = alookup k m := by
  rw [alookup_amodify, if_neg h]

theorem alookup_amodify_self {α : Type} (k : Nat) (f : α → α) (m : List (Nat × α)) :
    alookup k (amodify k f m) = (alookup k m).map f := by
  rw [alookup_amodify, if_pos rfl]

/-- `List.find?` success gives membership and the test. -/
theorem findNamed_spec {files : List (Nat × FSEntry)} {children : List Nat}
    {target : List Nat} {c : Nat} (h : findNamed files children target = some c) :
    c ∈ children ∧ ∃ ce, alookup c files = some ce ∧ fixedNameToStr ce.name = target := by
  unfold findNamed at h
  refine ⟨List.mem_of_find?_eq_some h, ?_⟩
  have := List.find?_some h
  revert this
  match halo : alookup c files with
  | some ce =>
    intro hb
    exact ⟨ce, rfl, by simpa using hb⟩
  | none => intro hb; simp at hb

/-! ## Concrete example states (witness / counterexample inputs) -/

instance : Inhabited St :=
  ⟨{ files := [], inodeBlockTable := [], disk := [], bitmap := [], counter := 0 }⟩

/-- The epoch, used as `SystemTime::now()` in concrete runs. -/
def epoch : Time := ⟨0, 0⟩

/-- The mounted root-only state at time zero. -/
def stRoot : St := (mountedRoot epoch).getD default

/-- `stRoot` after `create(parent 1, "f")` — the file gets inode 2. -/
def stFile : St := ((createOp stRoot 1 [102] epoch).map Prod.fst).getD default

/-- `stFile` after `write(ino 2, offset 0, [1, 2])`. -/
def stFile12 : St := ((writeOp stFile 2 0 [1, 2]).map Prod.fst).getD default

/-! ## C4 — the read handler -/

/-- Helper: `readOp` in closed form. -/
theorem readOp_eq (s : St) (ino off sz : Nat) :
    readOp s ino off sz =
      match alookup ino s.files with
      | none => .err .enoent
      | some f =>
        if f.attrs.kind = .directory then .err .enoent else .dataR (f.data.getD []) := by
  unfold readOp
  cases alookup ino s.files with
  | none => rfl
  | some f =>
    by_cases h : f.attrs.kind = .directory
    · simp [h]
    · rcases hfd : f.data with _ | d <;> simp [h, hfd]

/-- C4 (amended): the read handler ignores `offset` and `size`, replying the
entire file buffer; `NO_ENT` exactly on a missing inode or a directory. -/
theorem c4_read_returns_whole_buffer (s : St) (ino off sz off' sz' : Nat) :
    readOp s ino off sz = readOp s ino off' sz' ∧
    (alookup ino s.files = none → readOp s ino off sz = .err .enoent) ∧
    (∀ f, alookup ino s.files = some f → f.attrs.kind = .directory →
      readOp s ino off sz = .err .enoent) ∧
    (∀ f, alookup ino s.files = some f → f.attrs.kind ≠ .directory →
      readOp s ino off sz = .dataR (f.data.getD [])) := by
  refine ⟨by rw [readOp_eq, readOp_eq], fun h => by rw [readOp_eq, h], ?_, ?_⟩
  · intro f hf hdir
    rw [readOp_eq, hf]
    simp [hdir]
  · intro f hf hdir
    rw [readOp_eq, hf]
    simp [hdir]

/-- C4 witness: on the concrete state whose inode 2 holds `[1, 2]`, the
handler replies the whole buffer. -/
theorem c4_read_returns_whole_buffer_witness :
    readOp stFile12 2 1 1 = .dataR [1, 2] := by
  have h := (c4_read_returns_whole_buffer stFile12 2 1 1 1 1).2.2.2
    ((alookup 2 stFile12.files).getD default) (by decide) (by decide)
  revert h
  decide

/-- C4 counterexample: reading inode 2 (data `[1, 2]`) at `offset 1`,
`size 1` must per the claim return `data[1 .. min(2, 2)] = [2]`; the code
replies `[1, 2]`. -/
theorem c4_slice_counterexample :
    (alookup 2 stFile12.files).bind FSEntry.data = some [1, 2] ∧
    readOp stFile12 2 1 1 = .dataR [1, 2] ∧
    readOp stFile12 2 1 1 ≠ .dataR [2] := by
  decide

/-! ## C9 — deserialization stays in bounds -/

/-- C9: if the buffer has at least 88 bytes and the little-endian size field
at bytes 80..88 has value `D` with `88 + D ≤ length`, every slice access of
`deserialize_fs_entry` is in bounds: the panic branch is unreachable. -/
theorem c9_deserialize_in_bounds (buf : List Nat)
    (h1 : 88 ≤ buf.length)
    (h2 : 88 + leVal ((buf.drop 80).take 8) ≤ buf.length) :
    (deserializeFsEntry buf).isSome = true := by
  have c01 : 0 + 8 ≤ buf.length := by omega
  have c02 : 8 + 8 ≤ buf.length := by omega
  have c03 : 16 + MAX_NAME_SIZE ≤ buf.length := by simp only [MAX_NAME_SIZE]; omega
  have c04 : 41 + 1 ≤ buf.length := by omega
  have c05 : 42 + 2 ≤ buf.length := by omega
  have c06 : 44 + 8 ≤ buf.length := by omega
  have c07 : 52 + 8 ≤ buf.length := by omega
  have c08 : 60 + 8 ≤ buf.length := by omega
  have c09 : 68 + 8 ≤ buf.length := by omega
  have c10 : 76 + 4 ≤ buf.length := by omega
  have c11 : 80 + 8 ≤ buf.length := by omega
  simp [deserializeFsEntry, slice?, c01, c02, c03, c04, c05, c06, c07, c08, c09, c10, c11, h2]

/-- C9 witness: the all-zero 88-byte buffer satisfies the bounds and
deserializes. -/
theorem c9_deserialize_in_bounds_witness :
    88 ≤ (List.replicate 88 0).length ∧
    (deserializeFsEntry (List.replicate 88 0)).isSome = true :=
  ⟨by decide, c9_deserialize_in_bounds (List.replicate 88 0) (by decide) (by decide)⟩

/-! ## C10 — rename with a missing source is a silent no-op -/

/-- C10: when the old parent does not exist or none of its children bears
the old name, the rename handler leaves the state (entries, children,
inode→block table, bitmap, backing file) untouched and still replies ok. -/
theorem c10_rename_missing_source_noop (s : St) (op np : Nat) (onm nnm : List Nat)
    (hv1 : isValidUtf8 onm = true) (hv2 : isValidUtf8 nnm = true)
    (h : ∀ pe, alookup op s.files = some pe → findNamed s.files pe.children onm = none) :
    renameOp s op onm np nnm = some (s, .ok) := by
  unfold renameOp
  rw [if_neg (by simp [hv1, hv2])]
  unfold renameM
  cases halo : alookup op s.files with
  | none => rfl
  | some pe =>
    simp only [h pe halo]
    rfl

/-- C10 witness: renaming the absent name `"n"` under the root of the
freshly mounted state changes nothing and replies ok. -/
theorem c10_rename_missing_source_noop_witness :
    renameOp stRoot 1 [110] 1 [109] = some (stRoot, .ok) :=
  c10_rename_missing_source_noop stRoot 1 1 [110] [109] (by decide) (by decide)
    (by
      intro pe hpe
      have hx : pe = (alookup 1 stRoot.files).getD default := by rw [hpe]; rfl
      subst hx
      decide)

/-! ## C7 — `free_block` -/

theorem getD_set_self (l : List Nat) (i v : Nat) (h : i < l.length) :
    (l.set i v).getD i 0 = v := by
  induction l generalizing i with
  | nil => simp at h
  | cons a rest ih =>
    cases i with
    | zero => rfl
    | succ i => exact ih i (by simpa using h)

theorem getD_set_ne (l : List Nat) (i j v : Nat) (h : i ≠ j) :
    (l.set i v).getD j 0 = l.getD j 0 := by
  induction l generalizing i j with
  | nil => simp
  | cons a rest ih =>
    cases i with
    | zero =>
      cases j with
      | zero => exact absurd rfl h
      | succ j => rfl
    | succ i =>
      cases j with
      | zero => rfl
      | succ j => exact ih i j (fun hh => h (by rw [hh]))

theorem testBit_clearMask_self (b bit : Nat) (h : bit < 8) :
    Nat.testBit (b &&& (255 ^^^ (1 <<< bit))) bit = false := by
  rw [Nat.testBit_land, Nat.testBit_xor]
  have h255 : Nat.testBit 255 bit = true := by
    have h2 : (255 : Nat) = 2 ^ 8 - 1 := by norm_num
    rw [h2, Nat.testBit_two_pow_sub_one]
    simp [h]
  have hp : Nat.testBit (1 <<< bit) bit = true := by
    rw [Nat.shiftLeft_eq, one_mul, Nat.testBit_two_pow_self]
  simp [h255, hp]

theorem testBit_clearMask_ne (b bit j : Nat) (h : j < 8) (hne : j ≠ bit) :
    Nat.testBit (b &&& (255 ^^^ (1 <<< bit))) j = Nat.testBit b j := by
  rw [Nat.testBit_land, Nat.testBit_xor]
  have h255 : Nat.testBit 255 j = true := by
    have h2 : (255 : Nat) = 2 ^ 8 - 1 := by norm_num
    rw [h2, Nat.testBit_two_pow_sub_one]
    simp [h]
  have hp : Nat.testBit (1 <<< bit) j = false := by
    rw [Nat.shiftLeft_eq, one_mul]
    exact Nat.testBit_two_pow_of_ne (fun hh => hne hh.symm)
  simp [h255, hp]

theorem land_self_nat (m : Nat) : m &&& m = m := by
  apply Nat.eq_of_testBit_eq
  intro i
  simp [Nat.testBit_land]

theorem diskFind_store_self (d : DiskM) (i : Nat) (b : List Nat) :
    diskFind (diskStore d i b) i = some b := by
  simp [diskFind, diskStore, List.find?]

theorem readBitmapD_freeBlock (d : DiskM) (idx : Nat) :
    readBitmapD (freeBlock d idx) = bitmapClearBit (readBitmapD d) idx := by
  simp [freeBlock, writeBitmapD, readBitmapD, readBlockD, diskFind_store_self]

theorem bitmapGet_clearBit_self (bm : List Nat) (idx : Nat) :
    bitmapGet (bitmapClearBit bm idx) idx = false := by
  unfold bitmapGet bitmapClearBit
  by_cases h : idx / 8 < bm.length
  · rw [if_pos (by simpa using h), getD_set_self _ _ _ h]
    exact testBit_clearMask_self _ _ (Nat.mod_lt _ (by norm_num))
  · rw [if_neg (by simpa using h)]

theorem bitmapGet_clearBit_ne (bm : List Nat) (idx j : Nat) (h : j ≠ idx) :
    bitmapGet (bitmapClearBit bm idx) j = bitmapGet bm j := by
  unfold bitmapGet bitmapClearBit
  by_cases hb : j / 8 < bm.length
  · rw [if_pos (by simpa using hb), if_pos hb]
    by_cases hd : idx / 8 = j / 8
    · rw [hd, getD_set_self _ _ _ hb]
      have hm : j % 8 ≠ idx % 8 := by
        intro hmod
        exact h (by omega)
      rw [hd] at *
      exact testBit_clearMask_ne _ _ _ (Nat.mod_lt _ (by norm_num)) hm
    · rw [getD_set_ne _ _ _ _ hd]
  · rw [if_neg (by simpa using hb), if_neg hb]

theorem filter_ne_filter_ne (d : DiskM) (i : Nat) :
    (d.filter (fun p => p.1 ≠ i)).filter (fun p => p.1 ≠ i) = d.filter (fun p => p.1 ≠ i) := by
  induction d with
  | nil => rfl
  | cons p rest ih =>
    by_cases h : p.1 = i
    · simp [List.filter_cons, h, ih]
    · simp [List.filter_cons, h, ih]

theorem diskStore_diskStore (d : DiskM) (i : Nat) (x y : List Nat) :
    diskStore (diskStore d i x) i y = diskStore d i y := by
  unfold diskStore
  simp [List.filter_cons, filter_ne_filter_ne]

/-- C7 (amended): `free_block` clears the addressed bitmap bit
unconditionally — including the self-reservation bits 0 and 1 — leaves every
other bit unchanged (so bits 0 and 1 do survive when the freed index is
≥ 2), and freeing an already-clear bit is a silent idempotent no-op. -/
theorem c7_free_block_clears_any_bit (d : DiskM) (idx : Nat) :
    bitmapGet (readBitmapD (freeBlock d idx)) idx = false ∧
    (∀ j, j ≠ idx → bitmapGet (readBitmapD (freeBlock d idx)) j = bitmapGet (readBitmapD d) j) ∧
    freeBlock (freeBlock d idx) idx = freeBlock d idx ∧
    (2 ≤ idx →
      bitmapGet (readBitmapD (freeBlock d idx)) 0 = bitmapGet (readBitmapD d) 0 ∧
      bitmapGet (readBitmapD (freeBlock d idx)) 1 = bitmapGet (readBitmapD d) 1) := by
  refine ⟨?_, ?_, ?_, ?_⟩
  · rw [readBitmapD_freeBlock]; exact bitmapGet_clearBit_self _ _
  · intro j hj
    rw [readBitmapD_freeBlock]; exact bitmapGet_clearBit_ne _ _ _ hj
  · unfold freeBlock
    have hr : readBitmapD (writeBitmapD d (bitmapClearBit (readBitmapD d) idx)) =
        bitmapClearBit (readBitmapD d) idx := by
      simp [writeBitmapD, readBitmapD, readBlockD, diskFind_store_self]
    rw [hr]
    unfold writeBitmapD
    rw [diskStore_diskStore]
    congr 1
    unfold bitmapClearBit
    by_cases h : idx / 8 < (readBitmapD d).length
    · rw [getD_set_self _ _ _ h, List.set_set, Nat.land_assoc, land_self_nat]
    · have hs : (readBitmapD d).set (idx / 8)
          ((readBitmapD d).getD (idx / 8) 0 &&& (255 ^^^ (1 <<< (idx % 8)))) = readBitmapD d :=
        List.set_eq_of_length_le (by omega)
      rw [hs, hs]
  · intro h2
    rw [readBitmapD_freeBlock]
    exact ⟨bitmapGet_clearBit_ne _ _ _ (by omega), bitmapGet_clearBit_ne _ _ _ (by omega)⟩

/-- C7 witness: freeing block 5 of a fresh disk clears bit 5 and leaves
bit 0 as it was. -/
theorem c7_free_block_clears_any_bit_witness :
    bitmapGet (readBitmapD (freeBlock initializeNewDisk 5)) 5 = false ∧
    bitmapGet (readBitmapD (freeBlock initializeNewDisk 5)) 0 =
      bitmapGet (readBitmapD initializeNewDisk) 0 :=
  ⟨(c7_free_block_clears_any_bit initializeNewDisk 5).1,
   ((c7_free_block_clears_any_bit initializeNewDisk 5).2.2.2 (by decide)).1⟩

/-- C7 counterexample: the claim says a free call never clears bits 0 or 1;
freeing block 0 on a fresh disk clears bit 0 (which was set). -/
theorem c7_free_block_zero_counterexample :
    bitmapGet (readBitmapD initializeNewDisk) 0 = true ∧
    bitmapGet (readBitmapD (freeBlock initializeNewDisk 0)) 0 = false := by
  decide

/-! ## Shared facts about `allocate_block` and `push` -/

theorem diskFind_cons (a : Nat) (b : List Nat) (rest : DiskM) (i : Nat) :
    diskFind ((a, b) :: rest) i = if a = i then some b else diskFind rest i := by
  by_cases h : a = i
  · simp [diskFind, List.find?, h]
  · simp [diskFind, List.find?, h, show (a == i) = false from by simp [h]]

theorem diskFind_filter_ne (d : DiskM) (i j : Nat) (h : j ≠ i) :
    diskFind (d.filter (fun p => p.1 ≠ j)) i = diskFind d i := by
  induction d with
  | nil => rfl
  | cons p rest ih =>
    obtain ⟨a, b⟩ := p
    rw [filter_ne_cons]
    by_cases haj : a = j
    · rw [if_pos haj, ih, diskFind_cons, if_neg (by omega)]
    · rw [if_neg haj, diskFind_cons, diskFind_cons]
      by_cases hai : a = i
      · rw [if_pos hai, if_pos hai]
      · rw [if_neg hai, if_neg hai, ih]

theorem diskFind_store_ne (d : DiskM) (i j : Nat) (b : List Nat) (h : j ≠ i) :
    diskFind (diskStore d j b) i = diskFind d i := by
  unfold diskStore
  rw [diskFind_cons, if_neg h, diskFind_filter_ne _ _ _ h]

theorem readBitmapD_writeCounterCell (d : DiskM) (v : Nat) :
    readBitmapD (writeCounterCell d v) = readBitmapD d := by
  simp only [readBitmapD, readBlockD, writeCounterCell]
  rw [diskFind_store_ne _ _ _ _
    (by simp [INODE_COUNTER_START, BITMAP_START] : INODE_COUNTER_START ≠ BITMAP_START)]

theorem allocateBlock_writeCounterCell_isSome (d : DiskM) (v : Nat) :
    (allocateBlock (writeCounterCell d v)).isSome = (allocateBlock d).isSome := by
  simp only [allocateBlock, readBitmapD_writeCounterCell]
  cases List.find? (fun b => !bitmapGet (readBitmapD d) b)
      (List.range' DATA_START (BLOCK_COUNT - DATA_START)) <;> rfl

theorem allocateBlock_spec {d d' : DiskM} {idx : Nat}
    (h : allocateBlock d = some (d', idx)) :
    DATA_START ≤ idx ∧ d' = writeBitmapD d (bitmapSetBit (readBitmapD d) idx) := by
  simp only [allocateBlock] at h
  cases hf : List.find? (fun b => !bitmapGet (readBitmapD d) b)
      (List.range' DATA_START (BLOCK_COUNT - DATA_START)) with
  | none => rw [hf] at h; simp at h
  | some b =>
    rw [hf] at h
    simp only [Option.some.injEq, Prod.mk.injEq] at h
    obtain ⟨h2, h3⟩ := h
    subst h3
    have hm := List.mem_of_find?_eq_some hf
    have hb := (List.mem_range'_1.mp hm).1
    exact ⟨hb, h2.symm⟩

/-- The successful `push`: a free block exists and the serialized entry fits
one block.  Gives the entire resulting state explicitly. -/
theorem push_ok (s : St) (inode : Nat) (nm : List Nat) (dat : Option (List Nat))
    (p : Nat) (attrs : FileAttrM)
    (halloc : (allocateBlock s.disk).isSome = true)
    (hfit : (serializeFsEntryToDisk (FSEntry.new inode nm dat p attrs)).length ≤ BLOCK_SIZE) :
    ∃ d1 idx, allocateBlock s.disk = some (d1, idx) ∧ DATA_START ≤ idx ∧
      push s inode nm dat p attrs = .ok
        { files := amodify p (fun q => { q with children := q.children ++ [inode] })
            (ainsert inode (FSEntry.new inode nm dat p attrs) s.files)
          inodeBlockTable := ainsert inode idx s.inodeBlockTable
          disk := writeBitmapD
            (diskStore d1 idx (serializeFsEntryToDisk (FSEntry.new inode nm dat p attrs) ++
              List.replicate (BLOCK_SIZE -
                (serializeFsEntryToDisk (FSEntry.new inode nm dat p attrs)).length) 0))
            (bitmapSetBit s.bitmap idx)
          bitmap := bitmapSetBit s.bitmap idx
          counter := s.counter } := by
  obtain ⟨pr, hpr⟩ := Option.isSome_iff_exists.mp halloc
  obtain ⟨d1, idx⟩ := pr
  obtain ⟨hge, _⟩ := allocateBlock_spec hpr
  refine ⟨d1, idx, hpr, hge, ?_⟩
  simp only [push, hpr, writeBlockD]
  rw [if_neg (by omega :
    ¬ (serializeFsEntryToDisk (FSEntry.new inode nm dat p attrs)).length > BLOCK_SIZE)]

/-- `fixedName` of a 25-byte-or-longer name is its first 25 bytes. -/
theorem fixedName_of_long {nm : List Nat} (h : MAX_NAME_SIZE ≤ nm.length) :
    fixedName nm = nm.take MAX_NAME_SIZE := by
  unfold fixedName
  rw [show MAX_NAME_SIZE - nm.length = 0 by omega]
  simp

theorem fixedName_length (nm : List Nat) : (fixedName nm).length = MAX_NAME_SIZE := by
  unfold fixedName
  simp only [List.length_append, List.length_take, List.length_replicate]
  omega

/-- Length of the serialized disk form: 63 header bytes + the 25-byte name +
the inline data. -/
theorem serializeFsEntryToDisk_length (f : FSEntry) :
    (serializeFsEntryToDisk f).length = 63 + f.name.length + (f.data.getD []).length := by
  unfold serializeFsEntryToDisk
  simp only [List.length_append, leBytes_length, List.length_cons, List.length_nil]
  omega

/-! ## C5 — `push` never checks sibling names -/

/-- C5 (amended): `push` performs no sibling-name check at all.  Whenever a
free block exists and the serialized entry fits one block it succeeds —
regardless of any same-named sibling — inserting the entry, allocating and
writing a block, and appending the inode to the parent's children. -/
theorem c5_push_never_fails_name_clash (s : St) (inode : Nat) (nm : List Nat)
    (dat : Option (List Nat)) (p : Nat) (attrs : FileAttrM)
    (hp : p ≠ inode)
    (halloc : (allocateBlock s.disk).isSome = true)
    (hfit : (serializeFsEntryToDisk (FSEntry.new inode nm dat p attrs)).length ≤ BLOCK_SIZE) :
    ∃ s' b, push s inode nm dat p attrs = .ok s' ∧
      alookup inode s'.files = some (FSEntry.new inode nm dat p attrs) ∧
      alookup inode s'.inodeBlockTable = some b ∧
      readBlockD s'.disk b =
        serializeFsEntryToDisk (FSEntry.new inode nm dat p attrs) ++
          List.replicate (BLOCK_SIZE -
            (serializeFsEntryToDisk (FSEntry.new inode nm dat p attrs)).length) 0 ∧
      (∀ pe, alookup p s.files = some pe →
        alookup p s'.files = some { pe with children := pe.children ++ [inode] }) := by
  obtain ⟨d1, idx, hpr, hge, hpush⟩ := push_ok s inode nm dat p attrs halloc hfit
  refine ⟨_, idx, hpush, ?_, ?_, ?_, ?_⟩
  · rw [alookup_amodify_ne _ _ hp, alookup_ainsert_self]
  · exact alookup_ainsert_self _ _ _
  · show readBlockD (writeBitmapD (diskStore d1 idx _) _) idx = _
    unfold readBlockD writeBitmapD
    rw [diskFind_store_ne _ _ _ _ (by simp only [BITMAP_START, DATA_START] at *; omega),
      diskFind_store_self]
    rfl
  · intro pe hpe
    rw [alookup_amodify_self, alookup_ainsert_ne _ _ (fun hh => hp hh.symm), hpe]
    rfl

/-- C5 witness: a fresh mount has a free block, and pushing `"a"` under the
root succeeds and registers the entry. -/
theorem c5_push_never_fails_name_clash_witness :
    (allocateBlock stRoot.disk).isSome = true ∧
    ∃ s' b, push stRoot 2 [97] none 1 (getDefaultAttrs 2 0 false epoch) = .ok s' ∧
      alookup 2 s'.files = some (FSEntry.new 2 [97] none 1 (getDefaultAttrs 2 0 false epoch)) ∧
      alookup 2 s'.inodeBlockTable = some b :=
  ⟨by decide, by
    obtain ⟨s', b, h1, h2, h3, _⟩ := c5_push_never_fails_name_clash stRoot 2 [97] none 1
      (getDefaultAttrs 2 0 false epoch) (by decide) (by decide) (by decide)
    exact ⟨s', b, h1, h2, h3⟩⟩

/-- Project the state out of a `push` outcome (for concrete runs). -/
def pushOkSt : PushOut → St
  | .ok s => s
  | .ioErr s => s
  | .panicFull => default

/-- Root plus a file `"a"` (inode 2) inserted via `push`. -/
def stDup1 : St := pushOkSt (push stRoot 2 [97] none 1 (getDefaultAttrs 2 0 false epoch))

/-- `stDup1` after pushing a second entry that is also named `"a"`. -/
def stDup2 : St := pushOkSt (push stDup1 3 [97] none 1 (getDefaultAttrs 3 0 false epoch))

/-- C5 counterexample: with a sibling `"a"` already present under the root,
inserting another `"a"` does not fail NAME_CLASH and does change the model:
it succeeds and the root ends up with two same-named children. -/
theorem c5_duplicate_sibling_counterexample :
    ((alookup 1 stDup1.files).map FSEntry.children = some [2]) ∧
    ((alookup 2 stDup1.files).map FSEntry.name = some (fixedName [97])) ∧
    push stDup1 3 [97] none 1 (getDefaultAttrs 3 0 false epoch) = .ok stDup2 ∧
    stDup2 ≠ stDup1 ∧
    ((alookup 1 stDup2.files).map FSEntry.children = some [2, 3]) ∧
    ((alookup 3 stDup2.files).map FSEntry.name = some (fixedName [97])) := by
  decide

/-! ## C6 — oversize writes -/

theorem writeRange_length (buf : List Nat) (offset : Nat) (data : List Nat)
    (h : offset + data.length ≤ buf.length) :
    (writeRange buf offset data).length = buf.length := by
  unfold writeRange
  simp only [List.length_append, List.length_take, List.length_drop]
  omega

/-- C6 (amended): a write that makes the serialized entry exceed one block
(file data beyond `B − 88 = 424` bytes) is *not* rejected and does not
return IO: the in-memory entry is updated and the handler replies
`written`, while the failed `write_block` is ignored and the backing file
keeps the block's previous contents — the persisted entry is stale (it can
no longer equal the in-memory entry, whose serialization exceeds a block),
but no adjacent data is corrupted. -/
theorem writeUpdatedEntry_spec (f : FSEntry) (offset : Nat) (data : List Nat) :
    ((writeUpdatedEntry f offset data).data.getD []).length =
      max (f.data.getD []).length (offset + data.length) ∧
    (writeUpdatedEntry f offset data).name = f.name := by
  unfold writeUpdatedEntry
  refine ⟨?_, rfl⟩
  simp only [Option.getD_some]
  by_cases hc : (f.data.getD []).length < offset + data.length
  · rw [if_pos hc, writeRange_length _ _ _ (by simp; omega)]
    simp; omega
  · rw [if_neg hc, writeRange_length _ _ _ (by omega)]
    omega

theorem c6_oversize_write_success_stale_disk
    (s : St) (ino offset : Nat) (data : List Nat) (f : FSEntry) (blk : Nat)
    (hf : alookup ino s.files = some f)
    (hkind : f.attrs.kind ≠ .directory)
    (hblk : alookup ino s.inodeBlockTable = some blk)
    (hname : f.name.length = MAX_NAME_SIZE)
    (hbig : BLOCK_SIZE - 88 < max (f.data.getD []).length (offset + data.length)) :
    ∃ s', writeOp s ino offset data = some (s', .written data.length) ∧
      s'.disk = s.disk ∧ s'.bitmap = s.bitmap ∧
      s'.inodeBlockTable = s.inodeBlockTable ∧
      (∀ f', alookup ino s'.files = some f' →
        BLOCK_SIZE < (serializeFsEntryToDisk f').length ∧
        ∀ blkBytes, blkBytes.length = BLOCK_SIZE →
          blkBytes ≠ serializeFsEntryToDisk f') := by
  have hserlen : BLOCK_SIZE < (serializeFsEntryToDisk (writeUpdatedEntry f offset data)).length := by
    rw [serializeFsEntryToDisk_length, (writeUpdatedEntry_spec f offset data).1,
      (writeUpdatedEntry_spec f offset data).2, hname]
    simp only [MAX_NAME_SIZE, BLOCK_SIZE] at *
    omega
  have hlenient : writeBlockLenient s.disk blk
      (serializeFsEntryToDisk (writeUpdatedEntry f offset data)) = s.disk := by
    unfold writeBlockLenient writeBlockD
    rw [if_pos (by omega), Option.getD_none]
  have hw : writeOp s ino offset data = some
      ({ s with files := amodify ino (fun _ => writeUpdatedEntry f offset data) s.files },
       .written data.length) := by
    simp only [writeOp, hf, hblk]
    rw [if_neg hkind, hlenient]
  refine ⟨_, hw, rfl, rfl, rfl, ?_⟩
  intro f' hf'
  rw [alookup_amodify_self, hf, Option.map_some'] at hf'
  injection hf' with hf'
  subst hf'
  refine ⟨hserlen, ?_⟩
  intro blkBytes hlen heq
  have h1 : blkBytes.length = (serializeFsEntryToDisk (writeUpdatedEntry f offset data)).length := by
    rw [heq]
  omega

/-- C6 witness: writing 425 bytes to the (empty) file at inode 2 replies
`written 425` and leaves the backing file untouched. -/
theorem c6_oversize_write_success_stale_disk_witness :
    ∃ s', writeOp stFile 2 0 (List.replicate 425 7) = some (s', .written 425) ∧
      s'.disk = stFile.disk := by
  obtain ⟨s', h1, h2, _, _, _⟩ := c6_oversize_write_success_stale_disk stFile 2 0
    (List.replicate 425 7) ((alookup 2 stFile.files).getD default)
    ((alookup 2 stFile.inodeBlockTable).getD 0) (by decide) (by decide) (by decide)
    (by decide) (by decide)
  exact ⟨s', by simpa using h1, h2⟩

/-- C6 counterexample: the claim demands that such a write "returns IO";
the concrete 425-byte write instead reports success (`written 425`), with
the in-memory size updated to 425 while the backing file is unchanged. -/
theorem c6_oversize_write_counterexample :
    ((writeOp stFile 2 0 (List.replicate 425 7)).map Prod.snd = some (.written 425)) ∧
    ((writeOp stFile 2 0 (List.replicate 425 7)).map Prod.snd ≠ some (.err .eio)) ∧
    ((writeOp stFile 2 0 (List.replicate 425 7)).map (fun pr => pr.1.disk) =
      some stFile.disk) ∧
    (((writeOp stFile 2 0 (List.replicate 425 7)).bind
        (fun pr => alookup 2 pr.1.files)).map (fun e => e.attrs.size) = some 425) := by
  decide

/-! ## C8 — names longer than 25 bytes are silently truncated -/

/-- C8: a valid-UTF-8 name longer than 25 bytes is never rejected by
create, mkdir, or rename; the stored entry's name is exactly the first 25
bytes of the input. -/
theorem c8_long_names_silently_truncated (s : St) (p np : Nat)
    (nm onm nnm : List Nat) (now : Time)
    (hval : isValidUtf8 nm = true) (hlen : MAX_NAME_SIZE < nm.length)
    (halloc : (allocateBlock s.disk).isSome = true)
    (hp : p ≠ s.counter) :
    (∃ s' a, createOp s p nm now = some (s', .created a s.counter) ∧
       (alookup s.counter s'.files).map FSEntry.name = some (nm.take MAX_NAME_SIZE)) ∧
    (∃ s' a, mkdirOp s p nm now = some (s', .entry a) ∧
       (alookup s.counter s'.files).map FSEntry.name = some (nm.take MAX_NAME_SIZE)) ∧
    (∀ pe c blk, isValidUtf8 onm = true → isValidUtf8 nnm = true →
      MAX_NAME_SIZE < nnm.length →
      alookup p s.files = some pe → findNamed s.files pe.children onm = some c →
      alookup c s.inodeBlockTable = some blk →
      ∃ s', renameOp s p onm np nnm = some (s', .ok) ∧
        (alookup c s'.files).map FSEntry.name = some (nnm.take MAX_NAME_SIZE)) := by
  have hfit : ∀ attrs, (serializeFsEntryToDisk (FSEntry.new s.counter nm none p attrs)).length
      ≤ BLOCK_SIZE := by
    intro attrs
    rw [serializeFsEntryToDisk_length]
    show 63 + (fixedName nm).length + _ ≤ _
    rw [fixedName_length]
    simp [FSEntry.new, MAX_NAME_SIZE, BLOCK_SIZE]
  have halloc' : (allocateBlock (writeCounterCell s.disk s.counter)).isSome = true := by
    rw [allocateBlock_writeCounterCell_isSome]; exact halloc
  refine ⟨?_, ?_, ?_⟩
  · obtain ⟨d1, idx, hpr, hge, hpush⟩ :=
      push_ok { s with counter := s.counter + 1, disk := writeCounterCell s.disk s.counter }
        s.counter nm none p (getDefaultAttrs s.counter 0 false now) halloc' (hfit _)
    have hlook : alookup s.counter
        (amodify p (fun q => { q with children := q.children ++ [s.counter] })
          (ainsert s.counter
            (FSEntry.new s.counter nm none p (getDefaultAttrs s.counter 0 false now)) s.files)) =
        some (FSEntry.new s.counter nm none p (getDefaultAttrs s.counter 0 false now)) := by
      rw [alookup_amodify_ne _ _ hp, alookup_ainsert_self]
    unfold createOp
    rw [if_neg (by simp [hval])]
    simp only [hpush, hlook]
    refine ⟨_, _, rfl, ?_⟩
    rw [hlook, Option.map_some']
    show some (fixedName nm) = _
    rw [fixedName_of_long (le_of_lt hlen)]
  · obtain ⟨d1, idx, hpr, hge, hpush⟩ :=
      push_ok { s with counter := s.counter + 1, disk := writeCounterCell s.disk s.counter }
        s.counter nm none p (getDefaultAttrs s.counter 0 true now) halloc' (hfit _)
    have hlook : alookup s.counter
        (amodify p (fun q => { q with children := q.children ++ [s.counter] })
          (ainsert s.counter
            (FSEntry.new s.counter nm none p (getDefaultAttrs s.counter 0 true now)) s.files)) =
        some (FSEntry.new s.counter nm none p (getDefaultAttrs s.counter 0 true now)) := by
      rw [alookup_amodify_ne _ _ hp, alookup_ainsert_self]
    unfold mkdirOp
    rw [if_neg (by simp [hval])]
    simp only [hpush, hlook]
    refine ⟨_, _, rfl, ?_⟩
    rw [hlook, Option.map_some']
    show some (fixedName nm) = _
    rw [fixedName_of_long (le_of_lt hlen)]
  · intro pe c blk hvo hvn hln hpe hfind hblk
    unfold renameOp
    rw [if_neg (by simp [hvo, hvn])]
    obtain ⟨ce, hce, _⟩ := (findNamed_spec hfind).2
    simp only [renameM, hpe, hfind, hce, hblk]
    refine ⟨_, rfl, ?_⟩
    rw [alookup_amodify, alookup_amodify, alookup_amodify_self, hce]
    by_cases h1 : np = c <;> by_cases h2 : p = c <;>
      simp [h1, h2, fixedName_of_long (le_of_lt hln)]

/-- C8 witness: a 26-byte name is accepted by create and stored as its
first 25 bytes. -/
theorem c8_long_names_silently_truncated_witness :
    ∃ s' a, createOp stRoot 1 (List.replicate 26 97) epoch = some (s', .created a 2) ∧
      (alookup 2 s'.files).map FSEntry.name = some (List.replicate 25 97) := by
  obtain ⟨h1, _, _⟩ := c8_long_names_silently_truncated stRoot 1 1
    (List.replicate 26 97) [] [] epoch (by decide) (by decide) (by decide) (by decide)
  obtain ⟨s', a, hop, hname⟩ := h1
  have hc2 : stRoot.counter = 2 := by decide
  rw [hc2] at hop hname
  exact ⟨s', a, hop, by rw [hname]; decide⟩

/-! ## C2 — the §3 model invariants along operation sequences -/

/-- Parent pointer of an inode in an entry map. -/
def parentOf (files : List (Nat × FSEntry)) (i : Nat) : Option Nat :=
  (alookup i files).map (·.parent)

/-- The chain of parents from `i` reaches the root inode 1 in finitely many
steps — the claim's reading of "the parent graph is acyclic". -/
inductive Reaches (pf : Nat → Option Nat) : Nat → Prop where
  | root : Reaches pf 1
  | step {i p : Nat} : i ≠ 1 → pf i = some p → Reaches pf p → Reaches pf i

/-- `y` lies on the parent chain starting at `x` (including `x` itself). -/
inductive Chain (pf : Nat → Option Nat) : Nat → Nat → Prop where
  | refl (x : Nat) : Chain pf x x
  | step {x p y : Nat} : pf x = some p → Chain pf p y → Chain pf x y

/-- §3 invariants 1–5 as the claim lists them: a unique root entry (inode 1,
parent 0), every other parent an existing directory, parent/children
symmetry (with duplicate-free children lists), acyclicity, and distinct
sibling names. -/
structure Inv (files : List (Nat × FSEntry)) : Prop where
  root_exists : ∃ r, alookup 1 files = some r ∧ r.parent = 0 ∧ r.attrs.kind = .directory
  root_unique : ∀ i e, alookup i files = some e → e.parent = 0 → i = 1
  parent_dir : ∀ i e, alookup i files = some e → i ≠ 1 →
    ∃ pe, alookup e.parent files = some pe ∧ pe.attrs.kind = .directory
  child_in_parent : ∀ i e, alookup i files = some e → e.parent ≠ 0 →
    ∃ pe, alookup e.parent files = some pe ∧ i ∈ pe.children
  children_sound : ∀ p pe c, alookup p files = some pe → c ∈ pe.children →
    ∃ ce, alookup c files = some ce ∧ ce.parent = p
  children_nodup : ∀ p pe, alookup p files = some pe → pe.children.Nodup
  acyclic : ∀ i e, alookup i files = some e → Reaches (parentOf files) i
  names_distinct : ∀ p pe c₁ c₂ e₁ e₂, alookup p files = some pe →
    c₁ ∈ pe.children → c₂ ∈ pe.children → c₁ ≠ c₂ →
    alookup c₁ files = some e₁ → alookup c₂ files = some e₂ →
    e₁.name ≠ e₂.name

/-- Implementation bookkeeping carried alongside `Inv`: the inode counter
exceeds every issued inode (and is at least 2), the inode→block table covers
every entry, and no entry sits at inode 0. -/
structure Aux (s : St) : Prop where
  counter_big : ∀ i e, alookup i s.files = some e → i < s.counter
  counter_ge2 : 2 ≤ s.counter
  table_tot : ∀ i e, alookup i s.files = some e → ∃ b, alookup i s.inodeBlockTable = some b
  zero_absent : alookup 0 s.files = none

/-- The four mutations of the claim, with `SystemTime::now()` made explicit. -/
inductive FsOp where
  | create (parent : Nat) (name : List Nat) (now : Time)
  | mkdir (parent : Nat) (name : List Nat) (now : Time)
  | rmdir (parent : Nat) (name : List Nat)
  | rename (parent : Nat) (name : List Nat) (newparent : Nat) (newname : List Nat)

/-- Dispatch one kernel operation. -/
def applyOp (s : St) : FsOp → Option (St × Reply)
  | .create p nm t => createOp s p nm t
  | .mkdir p nm t => mkdirOp s p nm t
  | .rmdir p nm => some (rmdirOp s p nm)
  | .rename p nm np nnm => renameOp s p nm np nnm

/-- The stored (25-byte truncated) form of `nm` is unused by every child of
`pe`, except possibly the child `c₀`. -/
def nameFreeExcept (files : List (Nat × FSEntry)) (pe : FSEntry) (nm : List Nat)
    (c₀ : Option Nat) : Prop :=
  ∀ c ce, c ∈ pe.children → some c ≠ c₀ → alookup c files = some ce →
    ce.name ≠ fixedName nm

/-- The guards under which the handlers, which themselves check nothing,
keep the invariants: create/mkdir need an existing directory parent, a free
block and a fresh name; a rename that finds its source needs an existing
directory destination outside the moved entry's own subtree and a fresh
name there; rmdir needs nothing. -/
def Pre (s : St) : FsOp → Prop
  | .create p nm _ =>
      isValidUtf8 nm = true ∧ (allocateBlock s.disk).isSome = true ∧
      ∃ pe, alookup p s.files = some pe ∧ pe.attrs.kind = .directory ∧
        nameFreeExcept s.files pe nm none
  | .mkdir p nm _ =>
      isValidUtf8 nm = true ∧ (allocateBlock s.disk).isSome = true ∧
      ∃ pe, alookup p s.files = some pe ∧ pe.attrs.kind = .directory ∧
        nameFreeExcept s.files pe nm none
  | .rmdir _ _ => True
  | .rename p nm np nnm =>
      isValidUtf8 nm = true ∧ isValidUtf8 nnm = true ∧
      ∀ pe c, alookup p s.files = some pe → findNamed s.files pe.children nm = some c →
        np ≠ 0 ∧ ¬ Chain (parentOf s.files) np c ∧
        ∃ npe, alookup np s.files = some npe ∧ npe.attrs.kind = .directory ∧
          nameFreeExcept s.files npe nnm (some c)

/-- A sequence is valid when each step's guard holds in the state it runs in. -/
def ValidSeq : St → List FsOp → Prop
  | _, [] => True
  | s, op :: ops => Pre s op ∧ ∀ s' r, applyOp s op = some (s', r) → ValidSeq s' ops

/-- Every step succeeds (no panic) and the §3 invariants hold after it. -/
def InvAlong : St → List FsOp → Prop
  | _, [] => True
  | s, op :: ops => ∃ s' r, applyOp s op = some (s', r) ∧ Inv s'.files ∧ InvAlong s' ops

/-! Transfer lemmas for `Reaches` under map updates. -/

theorem Reaches_mono {pf pf' : Nat → Option Nat}
    (h : ∀ x y, pf x = some y → pf' x = some y) :
    ∀ {i}, Reaches pf i → Reaches pf' i := by
  intro i hr
  induction hr with
  | root => exact .root
  | step hne hpf _ ih => exact .step hne (h _ _ hpf) ih

theorem parentOf_ainsert (files : List (Nat × FSEntry)) (k : Nat) (e : FSEntry) (x : Nat) :
    parentOf (ainsert k e files) x =
      if k = x then some e.parent else parentOf files x := by
  unfold parentOf
  by_cases h : k = x
  · subst h; rw [alookup_ainsert_self, if_pos rfl, Option.map_some']
  · rw [alookup_ainsert_ne _ _ h, if_neg h]

theorem parentOf_amodify (files : List (Nat × FSEntry)) (k : Nat)
    (g : FSEntry → FSEntry) (hg : ∀ e, (g e).parent = e.parent) (x : Nat) :
    parentOf (amodify k g files) x = parentOf files x := by
  unfold parentOf
  rw [alookup_amodify]
  by_cases h : k = x
  · rw [if_pos h]
    cases alookup x files with
    | none => rfl
    | some e => simp [hg]
  · rw [if_neg h]

theorem parentOf_aerase (files : List (Nat × FSEntry)) (k x : Nat) :
    parentOf (aerase k files) x = if k = x then none else parentOf files x := by
  unfold parentOf
  rw [alookup_aerase]
  by_cases h : k = x
  · rw [if_pos h, if_pos h]; rfl
  · rw [if_neg h, if_neg h]

/-- A reachable node's parent pointer never loops onto itself. -/
theorem reaches_no_fixpoint {pf : Nat → Option Nat} (hroot : pf 1 = some 0) :
    ∀ {x}, Reaches pf x → pf x = some x → False := by
  intro x hr
  induction hr with
  | root =>
    intro h
    rw [hroot] at h
    injection h with h
    omega
  | @step j q hne hpf hre ih =>
    intro hj
    rw [hj] at hpf
    injection hpf with hq
    exact ih (hq ▸ hj)

/-- An entry's parent pointer never loops onto itself in an invariant
state. -/
theorem no_self_parent {files : List (Nat × FSEntry)} (hI : Inv files)
    {i : Nat} {e : FSEntry} (hi : alookup i files = some e) (hp : e.parent = i) :
    False := by
  obtain ⟨r, hr1, hrp, _⟩ := hI.root_exists
  have hroot : parentOf files 1 = some 0 := by
    unfold parentOf; rw [hr1, Option.map_some', hrp]
  have hx : parentOf files i = some i := by
    unfold parentOf; rw [hi, Option.map_some', hp]
  exact reaches_no_fixpoint hroot (hI.acyclic i e hi) hx

/-- Inserting a fresh inode as a child of an existing directory `p` (the
`files`-map effect shared by `create` and `mkdir`) preserves the §3
invariants, provided no sibling carries the same stored name. -/
theorem inv_insert
    {files : List (Nat × FSEntry)} {p inode : Nat} {nm : List Nat}
    {attrs : FileAttrM} {pe : FSEntry}
    (hI : Inv files)
    (hfresh : alookup inode files = none)
    (hne0 : inode ≠ 0) (hne1 : inode ≠ 1)
    (hpe : alookup p files = some pe) (hdir : pe.attrs.kind = .directory)
    (hfree : nameFreeExcept files pe nm none)
    (hz : alookup 0 files = none) :
    Inv (amodify p (fun q => { q with children := q.children ++ [inode] })
          (ainsert inode (FSEntry.new inode nm none p attrs) files)) := by
  set newE := FSEntry.new inode nm none p attrs with hnewE
  set F' := amodify p (fun q => { q with children := q.children ++ [inode] })
      (ainsert inode newE files) with hF'
  have hp_ne : p ≠ inode := fun h => by rw [h, hfresh] at hpe; cases hpe
  have hp0 : p ≠ 0 := fun h => by rw [h, hz] at hpe; cases hpe
  have h1ne : (1 : Nat) ≠ inode := fun h => hne1 h.symm
  have hFi : alookup inode F' = some newE := by
    rw [hF', alookup_amodify_ne _ _ hp_ne, alookup_ainsert_self]
  have hFp : alookup p F' = some { pe with children := pe.children ++ [inode] } := by
    rw [hF', alookup_amodify_self, alookup_ainsert_ne _ _ (fun h => hp_ne h.symm), hpe,
      Option.map_some']
  have hFo : ∀ x, x ≠ inode → x ≠ p → alookup x F' = alookup x files := by
    intro x hx1 hx2
    rw [hF', alookup_amodify_ne _ _ (fun h => hx2 h.symm),
      alookup_ainsert_ne _ _ (fun h => hx1 h.symm)]
  have hFinv : ∀ x e', alookup x F' = some e' →
      (x = inode ∧ e' = newE) ∨
      (x = p ∧ e' = { pe with children := pe.children ++ [inode] }) ∨
      (x ≠ inode ∧ x ≠ p ∧ alookup x files = some e') := by
    intro x e' hx
    by_cases h1 : x = inode
    · subst h1; rw [hFi] at hx; injection hx with hx; exact Or.inl ⟨rfl, hx.symm⟩
    · by_cases h2 : x = p
      · subst h2; rw [hFp] at hx; injection hx with hx; exact Or.inr (Or.inl ⟨rfl, hx.symm⟩)
      · rw [hFo x h1 h2] at hx; exact Or.inr (Or.inr ⟨h1, h2, hx⟩)
  have hkeep : ∀ x e, alookup x files = some e → x ≠ inode →
      ∃ e', alookup x F' = some e' ∧ e'.parent = e.parent ∧ e'.name = e.name ∧
        e'.attrs = e.attrs ∧ (∀ c, c ∈ e.children → c ∈ e'.children) := by
    intro x e hx hxne
    by_cases h2 : x = p
    · subst h2
      have hepe : e = pe := by rw [hx] at hpe; injection hpe
      subst hepe
      exact ⟨_, hFp, rfl, rfl, rfl, fun c hc => List.mem_append_left _ hc⟩
    · exact ⟨e, by rw [hFo x hxne h2]; exact hx, rfl, rfl, rfl, fun c hc => hc⟩
  have hold_of_mem : ∀ q qe c, alookup q files = some qe → c ∈ qe.children →
      ∃ ce, alookup c files = some ce ∧ ce.parent = q ∧ c ≠ inode := by
    intro q qe c hq hc
    obtain ⟨ce, hce, hcp⟩ := hI.children_sound q qe c hq hc
    refine ⟨ce, hce, hcp, fun h => ?_⟩
    rw [h, hfresh] at hce; cases hce
  have hname : ∀ c ec, alookup c F' = some ec → c ≠ inode →
      ∃ eo, alookup c files = some eo ∧ eo.name = ec.name := by
    intro c ec hc hcne
    rcases hFinv c ec hc with ⟨h, _⟩ | ⟨hcp, he⟩ | ⟨_, _, hold⟩
    · exact absurd h hcne
    · subst hcp; exact ⟨pe, hpe, by rw [he]⟩
    · exact ⟨ec, hold, rfl⟩
  have hnewE_parent : newE.parent = p := rfl
  have hnewE_children : newE.children = [] := rfl
  refine ⟨?_, ?_, ?_, ?_, ?_, ?_, ?_, ?_⟩
  · -- root_exists
    obtain ⟨r, hr, hrp, hrk⟩ := hI.root_exists
    by_cases hp1 : p = 1
    · subst hp1
      have hre : pe = r := by rw [hpe] at hr; injection hr
      exact ⟨_, hFp, by show pe.parent = 0; rw [hre, hrp], by show pe.attrs.kind = _; exact hdir⟩
    · exact ⟨r, by rw [hFo 1 h1ne (fun h => hp1 h.symm)]; exact hr, hrp, hrk⟩
  · -- root_unique
    intro x e' hx hpz
    rcases hFinv x e' hx with ⟨hxi, he⟩ | ⟨hxp, he⟩ | ⟨_, _, hold⟩
    · rw [he, hnewE_parent] at hpz; exact absurd hpz hp0
    · have : pe.parent = 0 := by rw [he] at hpz; exact hpz
      rw [hxp]; exact hI.root_unique p pe hpe this
    · exact hI.root_unique x e' hold hpz
  · -- parent_dir
    intro x e' hx hxne1
    have hlift : ∀ q, (∃ qe, alookup q files = some qe ∧ qe.attrs.kind = .directory) →
        ∃ qe', alookup q F' = some qe' ∧ qe'.attrs.kind = .directory := by
      rintro q ⟨qe, hq, hk⟩
      have hqne : q ≠ inode := fun h => by rw [h, hfresh] at hq; cases hq
      obtain ⟨e2, he2, _, _, hattrs, _⟩ := hkeep q qe hq hqne
      exact ⟨e2, he2, by rw [hattrs]; exact hk⟩
    rcases hFinv x e' hx with ⟨hxi, he⟩ | ⟨hxp, he⟩ | ⟨hx1, hx2, hold⟩
    · rw [he, hnewE_parent]
      exact hlift p ⟨pe, hpe, hdir⟩
    · have hppne1 : p ≠ 1 := by rw [hxp] at hxne1; exact hxne1
      have := hI.parent_dir p pe hpe hppne1
      rw [he]
      exact hlift pe.parent this
    · exact hlift e'.parent (hI.parent_dir x e' hold hxne1)
  · -- child_in_parent
    intro x e' hx hpz
    have hlift : ∀ q c, (∃ qe, alookup q files = some qe ∧ c ∈ qe.children) →
        ∃ qe', alookup q F' = some qe' ∧ c ∈ qe'.children := by
      rintro q c ⟨qe, hq, hm⟩
      have hqne : q ≠ inode := fun h => by rw [h, hfresh] at hq; cases hq
      obtain ⟨e2, he2, _, _, _, hch⟩ := hkeep q qe hq hqne
      exact ⟨e2, he2, hch c hm⟩
    rcases hFinv x e' hx with ⟨hxi, he⟩ | ⟨hxp, he⟩ | ⟨hx1, hx2, hold⟩
    · rw [he, hnewE_parent]
      refine ⟨_, hFp, ?_⟩
      rw [hxi]
      exact List.mem_append_right _ (List.mem_singleton_self _)
    · have hpz' : pe.parent ≠ 0 := by rw [he] at hpz; exact hpz
      obtain ⟨qe, hq, hm⟩ := hI.child_in_parent p pe hpe hpz'
      rw [he]
      exact hlift pe.parent x (by rw [hxp]; exact ⟨qe, hq, hm⟩)
    · exact hlift e'.parent x (hI.child_in_parent x e' hold hpz)
  · -- children_sound
    intro q qe' c hq hc
    have hstep : ∀ cc, alookup cc files ≠ none → cc ≠ inode := by
      intro cc hcc h; rw [h, hfresh] at hcc; exact hcc rfl
    rcases hFinv q qe' hq with ⟨hqi, he⟩ | ⟨hqp, he⟩ | ⟨hq1, hq2, hold⟩
    · rw [he, hnewE_children] at hc; cases hc
    · rw [he] at hc
      rcases List.mem_append.mp hc with hcold | hcnew
      · obtain ⟨ce, hce, hcp, hcne⟩ := hold_of_mem p pe c hpe hcold
        by_cases hcp2 : c = p
        · refine ⟨_, by rw [hcp2]; exact hFp, ?_⟩
          have : ce = pe := by rw [hcp2, hpe] at hce; injection hce with h; exact h.symm
          show pe.parent = q
          rw [hqp, ← hcp, this]
        · exact ⟨ce, by rw [hFo c hcne hcp2]; exact hce, by rw [hqp, ← hcp]⟩
      · have hci : c = inode := List.mem_singleton.mp hcnew
        exact ⟨newE, by rw [hci]; exact hFi, by rw [hnewE_parent, hqp]⟩
    · obtain ⟨ce, hce, hcp, hcne⟩ := hold_of_mem q qe' c hold hc
      by_cases hcp2 : c = p
      · refine ⟨_, by rw [hcp2]; exact hFp, ?_⟩
        have : ce = pe := by rw [hcp2, hpe] at hce; injection hce with h; exact h.symm
        show pe.parent = q
        rw [← this, hcp]
      · exact ⟨ce, by rw [hFo c hcne hcp2]; exact hce, hcp⟩
  · -- children_nodup
    intro q qe' hq
    rcases hFinv q qe' hq with ⟨hqi, he⟩ | ⟨hqp, he⟩ | ⟨hq1, hq2, hold⟩
    · rw [he, hnewE_children]; exact List.nodup_nil
    · rw [he]
      show (pe.children ++ [inode]).Nodup
      rw [List.nodup_append]
      refine ⟨hI.children_nodup p pe hpe, List.nodup_singleton _, ?_⟩
      intro a ha hb
      have hai : a = inode := List.mem_singleton.mp hb
      obtain ⟨_, _, _, hcne⟩ := hold_of_mem p pe a hpe ha
      exact hcne hai
    · exact hI.children_nodup q qe' hold
  · -- acyclic
    have hpf' : ∀ x, parentOf F' x = if inode = x then some p else parentOf files x := by
      intro x
      rw [hF', parentOf_amodify (ainsert inode newE files) p
        (fun q => { q with children := q.children ++ [inode] }) (fun e => rfl), parentOf_ainsert]
      rfl
    have hmono : ∀ x y, parentOf files x = some y → parentOf F' x = some y := by
      intro x y hxy
      have hxne : inode ≠ x := by
        intro h
        rw [← h] at hxy
        unfold parentOf at hxy
        rw [hfresh] at hxy
        cases hxy
      rw [hpf' x, if_neg hxne]; exact hxy
    have hRp : Reaches (parentOf F') p := Reaches_mono hmono (hI.acyclic p pe hpe)
    have hRi : Reaches (parentOf F') inode :=
      .step hne1 (by rw [hpf', if_pos rfl]) hRp
    intro x e' hx
    rcases hFinv x e' hx with ⟨hxi, _⟩ | ⟨hxp, _⟩ | ⟨_, _, hold⟩
    · rw [hxi]; exact hRi
    · rw [hxp]; exact Reaches_mono hmono (hI.acyclic p pe hpe)
    · exact Reaches_mono hmono (hI.acyclic x e' hold)
  · -- names_distinct
    intro q qe' c₁ c₂ e₁ e₂ hq hc₁ hc₂ hcne hce₁ hce₂
    rcases hFinv q qe' hq with ⟨hqi, he⟩ | ⟨hqp, he⟩ | ⟨hq1, hq2, hold⟩
    · rw [he, hnewE_children] at hc₁; cases hc₁
    · rw [he] at hc₁ hc₂
      rcases List.mem_append.mp hc₁ with h1old | h1new <;>
        rcases List.mem_append.mp hc₂ with h2old | h2new
      · -- both old siblings
        obtain ⟨_, _, _, h1ne⟩ := hold_of_mem p pe c₁ hpe h1old
        obtain ⟨_, _, _, h2ne⟩ := hold_of_mem p pe c₂ hpe h2old
        obtain ⟨o₁, ho₁, hon₁⟩ := hname c₁ e₁ hce₁ h1ne
        obtain ⟨o₂, ho₂, hon₂⟩ := hname c₂ e₂ hce₂ h2ne
        rw [← hon₁, ← hon₂]
        exact hI.names_distinct p pe c₁ c₂ o₁ o₂ hpe h1old h2old hcne ho₁ ho₂
      · -- old c₁ vs the new entry
        obtain ⟨_, _, _, h1ne⟩ := hold_of_mem p pe c₁ hpe h1old
        obtain ⟨o₁, ho₁, hon₁⟩ := hname c₁ e₁ hce₁ h1ne
        have h2i : c₂ = inode := List.mem_singleton.mp h2new
        have he₂ : e₂ = newE := by rw [h2i, hFi] at hce₂; injection hce₂ with h; exact h.symm
        rw [← hon₁, he₂]
        show o₁.name ≠ fixedName nm
        exact hfree c₁ o₁ h1old (by simp) ho₁
      · -- the new entry vs old c₂
        obtain ⟨_, _, _, h2ne⟩ := hold_of_mem p pe c₂ hpe h2old
        obtain ⟨o₂, ho₂, hon₂⟩ := hname c₂ e₂ hce₂ h2ne
        have h1i : c₁ = inode := List.mem_singleton.mp h1new
        have he₁ : e₁ = newE := by rw [h1i, hFi] at hce₁; injection hce₁ with h; exact h.symm
        rw [← hon₂, he₁]
        show fixedName nm ≠ o₂.name
        exact (hfree c₂ o₂ h2old (by simp) ho₂).symm
      · exact absurd (by rw [List.mem_singleton.mp h1new, List.mem_singleton.mp h2new])
          hcne
    · obtain ⟨_, _, _, h1ne⟩ := hold_of_mem q qe' c₁ hold hc₁
      obtain ⟨_, _, _, h2ne⟩ := hold_of_mem q qe' c₂ hold hc₂
      obtain ⟨o₁, ho₁, hon₁⟩ := hname c₁ e₁ hce₁ h1ne
      obtain ⟨o₂, ho₂, hon₂⟩ := hname c₂ e₂ hce₂ h2ne
      rw [← hon₁, ← hon₂]
      exact hI.names_distinct q qe' c₁ c₂ o₁ o₂ hold hc₁ hc₂ hcne ho₁ ho₂

theorem mem_filter_ne {l : List Nat} {x t : Nat} :
    x ∈ l.filter (fun y => y ≠ t) ↔ x ∈ l ∧ x ≠ t := by
  simp [List.mem_filter]

/-- Removing an empty directory `t`, a child of `p` (the `files`-map effect
of a successful `rmdir`), preserves the §3 invariants. -/
theorem inv_remove
    {files : List (Nat × FSEntry)} {p t : Nat} {pe te : FSEntry}
    (hI : Inv files)
    (hpe : alookup p files = some pe)
    (htm : t ∈ pe.children)
    (hte : alookup t files = some te)
    (hempty : te.children = [])
    (hz : alookup 0 files = none) :
    Inv (aerase t
          (amodify p (fun q => { q with children := q.children.filter (fun x => x ≠ t) })
            files)) := by
  set F' := aerase t
      (amodify p (fun q => { q with children := q.children.filter (fun x => x ≠ t) })
        files) with hF'
  have htp : te.parent = p := by
    obtain ⟨ce, hce, hcp⟩ := hI.children_sound p pe t hpe htm
    have : ce = te := by rw [hte] at hce; injection hce with h; exact h.symm
    rw [← this]; exact hcp
  have ht0 : t ≠ 0 := fun h => by rw [h, hz] at hte; cases hte
  have hp0 : p ≠ 0 := fun h => by rw [h, hz] at hpe; cases hpe
  have ht1 : t ≠ 1 := by
    intro h
    obtain ⟨r, hr, hrp, _⟩ := hI.root_exists
    have : te = r := by rw [h, hr] at hte; injection hte with hh; exact hh.symm
    rw [this, hrp] at htp
    exact hp0 htp.symm
  have htpne : t ≠ p := by
    intro h
    exact no_self_parent hI hte (by rw [htp, h])
  have hnopt : ∀ x e, alookup x files = some e → e.parent ≠ t := by
    intro x e hx hp'
    obtain ⟨qe, hq, hmem⟩ := hI.child_in_parent x e hx (by rw [hp']; exact ht0)
    rw [hp', hte] at hq
    have : qe = te := by injection hq with hh; exact hh.symm
    rw [this, hempty] at hmem
    cases hmem
  have hFt : alookup t F' = none := by
    rw [hF', alookup_aerase, if_pos rfl]
  have hFp : alookup p F' =
      some { pe with children := pe.children.filter (fun x => x ≠ t) } := by
    rw [hF', alookup_aerase, if_neg htpne, alookup_amodify_self, hpe, Option.map_some']
  have hFo : ∀ x, x ≠ t → x ≠ p → alookup x F' = alookup x files := by
    intro x h1 h2
    rw [hF', alookup_aerase, if_neg (fun h => h1 h.symm),
      alookup_amodify_ne _ _ (fun h => h2 h.symm)]
  have hFinv : ∀ x e', alookup x F' = some e' →
      x ≠ t ∧ ((x = p ∧ e' = { pe with children := pe.children.filter (fun y => y ≠ t) }) ∨
        (x ≠ p ∧ alookup x files = some e')) := by
    intro x e' hx
    by_cases h1 : x = t
    · rw [h1, hFt] at hx; cases hx
    · refine ⟨h1, ?_⟩
      by_cases h2 : x = p
      · subst h2; rw [hFp] at hx; injection hx with hx; exact Or.inl ⟨rfl, hx.symm⟩
      · rw [hFo x h1 h2] at hx; exact Or.inr ⟨h2, hx⟩
  have hkeep : ∀ x e, alookup x files = some e → x ≠ t →
      ∃ e', alookup x F' = some e' ∧ e'.parent = e.parent ∧ e'.name = e.name ∧
        e'.attrs = e.attrs ∧ (∀ cc, cc ∈ e.children → cc ≠ t → cc ∈ e'.children) := by
    intro x e hx hxt
    by_cases h2 : x = p
    · subst h2
      have : e = pe := by rw [hx] at hpe; injection hpe
      subst this
      exact ⟨_, hFp, rfl, rfl, rfl, fun cc hc hcc => mem_filter_ne.mpr ⟨hc, hcc⟩⟩
    · exact ⟨e, by rw [hFo x hxt h2]; exact hx, rfl, rfl, rfl, fun cc hc _ => hc⟩
  have hname : ∀ x ex, alookup x F' = some ex →
      ∃ eo, alookup x files = some eo ∧ ex.name = eo.name := by
    intro x ex hx
    rcases (hFinv x ex hx).2 with ⟨hxp, he⟩ | ⟨_, hold⟩
    · exact ⟨pe, by rw [hxp]; exact hpe, by rw [he]⟩
    · exact ⟨ex, hold, rfl⟩
  refine ⟨?_, ?_, ?_, ?_, ?_, ?_, ?_, ?_⟩
  · -- root_exists
    obtain ⟨r, hr, hrp, hrk⟩ := hI.root_exists
    obtain ⟨e', he', hpar, _, hattrs, _⟩ := hkeep 1 r hr (fun h => ht1 h.symm)
    exact ⟨e', he', by rw [hpar, hrp], by rw [hattrs]; exact hrk⟩
  · -- root_unique
    intro x e' hx hpz
    rcases (hFinv x e' hx).2 with ⟨hxp, he⟩ | ⟨_, hold⟩
    · rw [hxp]
      exact hI.root_unique p pe hpe (by rw [he] at hpz; exact hpz)
    · exact hI.root_unique x e' hold hpz
  · -- parent_dir
    intro x e' hx hxne1
    have hxt := (hFinv x e' hx).1
    have hget : ∃ e, alookup x files = some e ∧ e'.parent = e.parent := by
      rcases (hFinv x e' hx).2 with ⟨hxp, he⟩ | ⟨_, hold⟩
      · exact ⟨pe, by rw [hxp]; exact hpe, by rw [he]⟩
      · exact ⟨e', hold, rfl⟩
    obtain ⟨e, he, hpar⟩ := hget
    obtain ⟨qe, hq, hqk⟩ := hI.parent_dir x e he hxne1
    obtain ⟨qe', hq', _, _, hattrs, _⟩ := hkeep e.parent qe hq (hnopt x e he)
    exact ⟨qe', by rw [hpar]; exact hq', by rw [hattrs]; exact hqk⟩
  · -- child_in_parent
    intro x e' hx hpz
    have hxt := (hFinv x e' hx).1
    have hget : ∃ e, alookup x files = some e ∧ e'.parent = e.parent := by
      rcases (hFinv x e' hx).2 with ⟨hxp, he⟩ | ⟨_, hold⟩
      · exact ⟨pe, by rw [hxp]; exact hpe, by rw [he]⟩
      · exact ⟨e', hold, rfl⟩
    obtain ⟨e, he, hpar⟩ := hget
    obtain ⟨qe, hq, hmem⟩ := hI.child_in_parent x e he (by rw [← hpar]; exact hpz)
    obtain ⟨qe', hq', _, _, _, hch⟩ := hkeep e.parent qe hq (hnopt x e he)
    exact ⟨qe', by rw [hpar]; exact hq', hch x hmem hxt⟩
  · -- children_sound
    intro q qe' cc hq hc
    have hqt := (hFinv q qe' hq).1
    have hget : ∃ qe, alookup q files = some qe ∧ cc ∈ qe.children ∧ cc ≠ t := by
      rcases (hFinv q qe' hq).2 with ⟨hqp, he⟩ | ⟨hqnp, hold⟩
      · rw [he] at hc
        have := mem_filter_ne.mp hc
        exact ⟨pe, by rw [hqp]; exact hpe, this.1, this.2⟩
      · refine ⟨qe', hold, hc, ?_⟩
        intro h
        obtain ⟨ce, hce, hcp⟩ := hI.children_sound q qe' cc hold hc
        rw [h, hte] at hce
        have hcete : ce = te := by injection hce with hh; exact hh.symm
        rw [hcete, htp] at hcp
        exact hqnp hcp.symm
    obtain ⟨qe, hq2, hc2, hct⟩ := hget
    obtain ⟨ce, hce, hcp⟩ := hI.children_sound q qe cc hq2 hc2
    obtain ⟨ce', hce', hpar, _, _, _⟩ := hkeep cc ce hce hct
    exact ⟨ce', hce', by rw [hpar]; exact hcp⟩
  · -- children_nodup
    intro q qe' hq
    rcases (hFinv q qe' hq).2 with ⟨hqp, he⟩ | ⟨_, hold⟩
    · rw [he]
      exact List.Nodup.filter _ (hI.children_nodup p pe hpe)
    · exact hI.children_nodup q qe' hold
  · -- acyclic
    have hpf' : ∀ x, parentOf F' x = if t = x then none else parentOf files x := by
      intro x
      rw [hF', parentOf_aerase, parentOf_amodify files p
        (fun q => { q with children := q.children.filter (fun y => y ≠ t) }) (fun e => rfl)]
    have htrans : ∀ x, Reaches (parentOf files) x → x ≠ t → Reaches (parentOf F') x := by
      intro x hr
      induction hr with
      | root => intro _; exact .root
      | @step j q hne hpf hre ih =>
        intro hjt
        have hqney : q ≠ t := by
          unfold parentOf at hpf
          cases hj : alookup j files with
          | none => rw [hj] at hpf; cases hpf
          | some e =>
            rw [hj] at hpf
            simp only [Option.map_some'] at hpf
            injection hpf with hpf
            rw [← hpf]
            exact hnopt j e hj
        exact .step hne (by rw [hpf', if_neg (fun h => hjt h.symm)]; exact hpf) (ih hqney)
    intro x e' hx
    have hxt := (hFinv x e' hx).1
    have hget : ∃ e, alookup x files = some e := by
      rcases (hFinv x e' hx).2 with ⟨hxp, _⟩ | ⟨_, hold⟩
      · exact ⟨pe, by rw [hxp]; exact hpe⟩
      · exact ⟨e', hold⟩
    obtain ⟨e, he⟩ := hget
    exact htrans x (hI.acyclic x e he) hxt
  · -- names_distinct
    intro q qe' c₁ c₂ e₁ e₂ hq hc₁ hc₂ hcne hce₁ hce₂
    have hget : ∃ qe, alookup q files = some qe ∧ c₁ ∈ qe.children ∧ c₂ ∈ qe.children := by
      rcases (hFinv q qe' hq).2 with ⟨hqp, he⟩ | ⟨_, hold⟩
      · rw [he] at hc₁ hc₂
        exact ⟨pe, by rw [hqp]; exact hpe,
          (mem_filter_ne.mp hc₁).1, (mem_filter_ne.mp hc₂).1⟩
      · exact ⟨qe', hold, hc₁, hc₂⟩
    obtain ⟨qe, hq2, h1, h2⟩ := hget
    obtain ⟨o₁, ho₁, hon₁⟩ := hname c₁ e₁ hce₁
    obtain ⟨o₂, ho₂, hon₂⟩ := hname c₂ e₂ hce₂
    rw [hon₁, hon₂]
    exact hI.names_distinct q qe c₁ c₂ o₁ o₂ hq2 h1 h2 hcne ho₁ ho₂

/-- Moving the child `c` of `op` under the existing directory `np` with new
stored name `fixedName nnm` (the `files`-map effect of a successful
`rename`) preserves the §3 invariants when `np` is not in `c`'s own subtree
and no other child of `np` carries the new name. -/
theorem inv_rename
    {files : List (Nat × FSEntry)} {op c np : Nat} {pf child npe : FSEntry}
    {nnm : List Nat}
    (hI : Inv files)
    (hop : alookup op files = some pf)
    (hcm : c ∈ pf.children)
    (hchild : alookup c files = some child)
    (hnpe : alookup np files = some npe)
    (hnpk : npe.attrs.kind = .directory)
    (hnp0 : np ≠ 0)
    (hchain : ¬ Chain (parentOf files) np c)
    (hfree : nameFreeExcept files npe nnm (some c))
    (hz : alookup 0 files = none) :
    Inv (amodify np (fun q => { q with children := q.children ++ [c] })
          (amodify op (fun q => { q with children := q.children.filter (fun x => x ≠ c) })
            (amodify c (fun _ => { child with name := fixedName nnm, parent := np })
              files))) := by
  set child' : FSEntry := { child with name := fixedName nnm, parent := np } with hchild'
  set F' := amodify np (fun q => { q with children := q.children ++ [c] })
      (amodify op (fun q => { q with children := q.children.filter (fun x => x ≠ c) })
        (amodify c (fun _ => child') files)) with hF'
  have hcp : child.parent = op := by
    obtain ⟨ce, hce, hcpe⟩ := hI.children_sound op pf c hop hcm
    have : ce = child := by rw [hchild] at hce; injection hce with hh; exact hh.symm
    rw [← this]; exact hcpe
  have hc0 : c ≠ 0 := fun h => by rw [h, hz] at hchild; cases hchild
  have hop0 : op ≠ 0 := fun h => by rw [h, hz] at hop; cases hop
  have hc1 : c ≠ 1 := by
    intro h
    obtain ⟨r, hr, hrp, _⟩ := hI.root_exists
    have : child = r := by rw [h, hr] at hchild; injection hchild with hh; exact hh.symm
    rw [this, hrp] at hcp
    exact hop0 hcp.symm
  have hcop : c ≠ op := fun h => no_self_parent hI hchild (by rw [hcp, h])
  have hnpc : np ≠ c := fun h => hchain (by rw [h]; exact Chain.refl c)
  have hcnp : c ≠ np := fun h => hnpc h.symm
  -- the single lookup characterization of the transformed map
  have hF_eq : ∀ q, alookup q F' = (alookup q files).map (fun qe =>
      { qe with
        parent := if q = c then np else qe.parent
        name := if q = c then fixedName nnm else qe.name
        children := (if q = op then qe.children.filter (fun x => x ≠ c) else qe.children)
          ++ (if q = np then [c] else []) }) := by
    intro q
    rw [hF', alookup_amodify, alookup_amodify, alookup_amodify]
    by_cases h1 : q = c
    · rw [h1, if_neg hnpc, if_neg (fun hh => hcop hh.symm), if_pos rfl, hchild]
      simp [hchild', hcop, hcnp]
    · by_cases h2 : q = op
      · rw [if_neg (fun hh : c = q => h1 hh.symm), if_pos h2.symm]
        by_cases h3 : np = q
        · rw [if_pos h3]
          cases halo : alookup q files with
          | none => rfl
          | some qe =>
            have hopc : ¬ op = c := fun hh => h1 (h2.trans hh)
            have hopnp : op = np := (h3.trans h2).symm
            simp [h1, h2, hopc, hopnp, hnpc]
        · rw [if_neg h3]
          cases halo : alookup q files with
          | none => rfl
          | some qe =>
            have hopc : ¬ op = c := fun hh => h1 (h2.trans hh)
            have hopnp : ¬ op = np := fun hh => h3 (hh.symm.trans h2.symm)
            simp [h1, h2, hopc, hopnp]
      · by_cases h3 : q = np
        · rw [if_neg (fun hh : c = q => h1 hh.symm), if_neg (fun hh : op = q => h2 hh.symm), if_pos h3.symm]
          cases halo : alookup q files with
          | none => rfl
          | some qe =>
            have hnpc2 : ¬ np = c := hnpc
            have hnpop : ¬ np = op := fun hh => h2 (h3.trans hh)
            simp [h1, h2, h3, hnpc2, hnpop]
        · rw [if_neg (fun hh : c = q => h1 hh.symm), if_neg (fun hh : op = q => h2 hh.symm),
            if_neg (fun hh : np = q => h3 hh.symm)]
          cases halo : alookup q files with
          | none => rfl
          | some qe => simp [h1, h2, h3]
  have hFinv : ∀ q qe', alookup q F' = some qe' →
      ∃ qe, alookup q files = some qe ∧
        qe'.parent = (if q = c then np else qe.parent) ∧
        qe'.name = (if q = c then fixedName nnm else qe.name) ∧
        qe'.attrs = qe.attrs ∧
        qe'.children = (if q = op then qe.children.filter (fun x => x ≠ c) else qe.children)
          ++ (if q = np then [c] else []) := by
    intro q qe' hq
    rw [hF_eq q] at hq
    cases halo : alookup q files with
    | none => rw [halo] at hq; cases hq
    | some qe =>
      rw [halo] at hq
      injection hq with hq
      exact ⟨qe, rfl, by rw [← hq], by rw [← hq], by rw [← hq], by rw [← hq]⟩
  have hFwd : ∀ q qe, alookup q files = some qe →
      alookup q F' = some
        { qe with
          parent := if q = c then np else qe.parent
          name := if q = c then fixedName nnm else qe.name
          children := (if q = op then qe.children.filter (fun x => x ≠ c) else qe.children)
            ++ (if q = np then [c] else []) } := by
    intro q qe hq
    rw [hF_eq q, hq, Option.map_some']
  have hfirst_ne_c : ∀ q qe y, alookup q files = some qe →
      y ∈ (if q = op then qe.children.filter (fun x => x ≠ c) else qe.children) →
      y ∈ qe.children ∧ y ≠ c := by
    intro q qe y hq hy
    by_cases hqo : q = op
    · rw [if_pos hqo] at hy
      exact mem_filter_ne.mp hy
    · rw [if_neg hqo] at hy
      refine ⟨hy, fun h => ?_⟩
      obtain ⟨ce, hce, hcpe⟩ := hI.children_sound q qe y hq hy
      rw [h, hchild] at hce
      have : ce = child := by injection hce with hh; exact hh.symm
      rw [this, hcp] at hcpe
      exact hqo hcpe.symm
  refine ⟨?_, ?_, ?_, ?_, ?_, ?_, ?_, ?_⟩
  · -- root_exists
    obtain ⟨r, hr, hrp, hrk⟩ := hI.root_exists
    refine ⟨_, hFwd 1 r hr, ?_, ?_⟩
    · show (if (1 : Nat) = c then np else r.parent) = 0
      rw [if_neg (fun h => hc1 h.symm), hrp]
    · exact hrk
  · -- root_unique
    intro x e' hx hpz
    obtain ⟨qe, halo, hpar, _, _, _⟩ := hFinv x e' hx
    rw [hpar] at hpz
    by_cases h1 : x = c
    · rw [if_pos h1] at hpz
      exact absurd hpz hnp0
    · rw [if_neg h1] at hpz
      exact hI.root_unique x qe halo hpz
  · -- parent_dir
    intro x e' hx hx1
    obtain ⟨qe, halo, hpar, _, _, _⟩ := hFinv x e' hx
    rw [hpar]
    by_cases h1 : x = c
    · rw [if_pos h1]
      exact ⟨_, hFwd np npe hnpe, hnpk⟩
    · rw [if_neg h1]
      obtain ⟨de, hde, hdk⟩ := hI.parent_dir x qe halo hx1
      exact ⟨_, hFwd qe.parent de hde, hdk⟩
  · -- child_in_parent
    intro x e' hx hpz
    obtain ⟨qe, halo, hpar, _, _, _⟩ := hFinv x e' hx
    rw [hpar] at hpz ⊢
    by_cases h1 : x = c
    · rw [if_pos h1] at hpz ⊢
      refine ⟨_, hFwd np npe hnpe, ?_⟩
      show x ∈ _ ++ (if np = np then [c] else [])
      rw [if_pos rfl, h1]
      exact List.mem_append_right _ (List.mem_singleton_self _)
    · rw [if_neg h1] at hpz ⊢
      obtain ⟨de, hde, hmem⟩ := hI.child_in_parent x qe halo hpz
      refine ⟨_, hFwd qe.parent de hde, ?_⟩
      refine List.mem_append_left _ ?_
      by_cases hqo : qe.parent = op
      · rw [if_pos hqo]
        exact mem_filter_ne.mpr ⟨hmem, h1⟩
      · rw [if_neg hqo]
        exact hmem
  · -- children_sound
    intro q qe' y hq hy
    obtain ⟨qe, halo, _, _, _, hch⟩ := hFinv q qe' hq
    rw [hch] at hy
    rcases List.mem_append.mp hy with hy1 | hy2
    · obtain ⟨hmem, hyc⟩ := hfirst_ne_c q qe y halo hy1
      obtain ⟨ce, hce, hcpe⟩ := hI.children_sound q qe y halo hmem
      refine ⟨_, hFwd y ce hce, ?_⟩
      show (if y = c then np else ce.parent) = q
      rw [if_neg hyc]
      exact hcpe
    · by_cases hqn : q = np
      · rw [if_pos hqn] at hy2
        have hyc : y = c := List.mem_singleton.mp hy2
        refine ⟨_, by rw [hyc]; exact hFwd c child hchild, ?_⟩
        show (if c = c then np else child.parent) = q
        rw [if_pos rfl, hqn]
      · rw [if_neg hqn] at hy2
        cases hy2
  · -- children_nodup
    intro q qe' hq
    obtain ⟨qe, halo, _, _, _, hch⟩ := hFinv q qe' hq
    rw [hch, List.nodup_append]
    have hnd := hI.children_nodup q qe halo
    refine ⟨?_, ?_, ?_⟩
    · by_cases hqo : q = op
      · rw [if_pos hqo]; exact List.Nodup.filter _ hnd
      · rw [if_neg hqo]; exact hnd
    · by_cases hqn : q = np
      · rw [if_pos hqn]; exact List.nodup_singleton _
      · rw [if_neg hqn]; exact List.nodup_nil
    · intro a ha hb
      by_cases hqn : q = np
      · rw [if_pos hqn] at hb
        have hac : a = c := List.mem_singleton.mp hb
        obtain ⟨hmem, hane⟩ := hfirst_ne_c q qe a halo ha
        exact hane hac
      · rw [if_neg hqn] at hb
        cases hb
  · -- acyclic
    have hpfc : parentOf F' c = some np := by
      unfold parentOf
      rw [hFwd c child hchild, Option.map_some']
      show some (if c = c then np else child.parent) = some np
      rw [if_pos rfl]
    have hpfo : ∀ x, x ≠ c → parentOf F' x = parentOf files x := by
      intro x hxc
      unfold parentOf
      rw [hF_eq x]
      cases halo : alookup x files with
      | none => rfl
      | some qe =>
        simp only [Option.map_some']
        show some (if x = c then np else qe.parent) = some qe.parent
        rw [if_neg hxc]
    have L1 : ∀ x, Reaches (parentOf files) x →
        Chain (parentOf files) x c ∨ Reaches (parentOf F') x := by
      intro x hr
      induction hr with
      | root => exact Or.inr .root
      | @step j q hne hpf hre ih =>
        by_cases hjc : j = c
        · exact Or.inl (by rw [hjc]; exact Chain.refl c)
        · rcases ih with hch | hrr
          · exact Or.inl (Chain.step hpf hch)
          · exact Or.inr (.step hne (by rw [hpfo j hjc]; exact hpf) hrr)
    have hRnp : Reaches (parentOf F') np := by
      rcases L1 np (hI.acyclic np npe hnpe) with hch | h
      · exact absurd hch hchain
      · exact h
    have hRc : Reaches (parentOf F') c := .step hc1 hpfc hRnp
    have L2 : ∀ x, Reaches (parentOf files) x → Reaches (parentOf F') x := by
      intro x hr
      induction hr with
      | root => exact .root
      | @step j q hne hpf hre ih =>
        by_cases hjc : j = c
        · exact hjc ▸ hRc
        · exact .step hne (by rw [hpfo j hjc]; exact hpf) ih
    intro x e' hx
    obtain ⟨qe, halo, _, _, _, _⟩ := hFinv x e' hx
    exact L2 x (hI.acyclic x qe halo)
  · -- names_distinct
    intro q qe' c₁ c₂ e₁ e₂ hq hc₁ hc₂ hcne hce₁ hce₂
    obtain ⟨qe, halo, _, _, _, hch⟩ := hFinv q qe' hq
    rw [hch] at hc₁ hc₂
    have hnameF : ∀ y ey, alookup y F' = some ey → y ≠ c →
        ∃ eo, alookup y files = some eo ∧ ey.name = eo.name := by
      intro y ey hyF hyc
      obtain ⟨eo, heo, _, hnm, _, _⟩ := hFinv y ey hyF
      exact ⟨eo, heo, by rw [hnm, if_neg hyc]⟩
    have hcnameF : ∀ ey, alookup c F' = some ey → ey.name = fixedName nnm := by
      intro ey hyF
      obtain ⟨eo, heo, _, hnm, _, _⟩ := hFinv c ey hyF
      rw [hnm, if_pos rfl]
    rcases List.mem_append.mp hc₁ with h1f | h1s <;>
      rcases List.mem_append.mp hc₂ with h2f | h2s
    · obtain ⟨hm₁, hyc₁⟩ := hfirst_ne_c q qe c₁ halo h1f
      obtain ⟨hm₂, hyc₂⟩ := hfirst_ne_c q qe c₂ halo h2f
      obtain ⟨o₁, ho₁, hon₁⟩ := hnameF c₁ e₁ hce₁ hyc₁
      obtain ⟨o₂, ho₂, hon₂⟩ := hnameF c₂ e₂ hce₂ hyc₂
      rw [hon₁, hon₂]
      exact hI.names_distinct q qe c₁ c₂ o₁ o₂ halo hm₁ hm₂ hcne ho₁ ho₂
    · -- c₂ is the moved child, so q = np and c₁ is an old child of np
      by_cases hqn : q = np
      · rw [if_pos hqn] at h2s
        have h2c : c₂ = c := List.mem_singleton.mp h2s
        have hqenpe : qe = npe := by
          rw [hqn, hnpe] at halo; injection halo with hh; exact hh.symm
        obtain ⟨hm₁, hyc₁⟩ := hfirst_ne_c q qe c₁ halo h1f
        obtain ⟨o₁, ho₁, hon₁⟩ := hnameF c₁ e₁ hce₁ hyc₁
        rw [h2c] at hce₂
        rw [hon₁, hcnameF e₂ hce₂]
        exact hfree c₁ o₁ (by rw [← hqenpe]; exact hm₁)
          (fun h => hyc₁ (by injection h)) ho₁
      · rw [if_neg hqn] at h2s
        cases h2s
    · -- symmetric: c₁ is the moved child
      by_cases hqn : q = np
      · rw [if_pos hqn] at h1s
        have h1c : c₁ = c := List.mem_singleton.mp h1s
        have hqenpe : qe = npe := by
          rw [hqn, hnpe] at halo; injection halo with hh; exact hh.symm
        obtain ⟨hm₂, hyc₂⟩ := hfirst_ne_c q qe c₂ halo h2f
        obtain ⟨o₂, ho₂, hon₂⟩ := hnameF c₂ e₂ hce₂ hyc₂
        rw [hon₂]
        rw [hcnameF e₁ (h1c ▸ hce₁)]
        exact (hfree c₂ o₂ (by rw [← hqenpe]; exact hm₂)
          (fun h => hyc₂ (by injection h)) ho₂).symm
      · rw [if_neg hqn] at h1s
        cases h1s
    · by_cases hqn : q = np
      · rw [if_pos hqn] at h1s h2s
        exact absurd (by rw [List.mem_singleton.mp h1s, List.mem_singleton.mp h2s]) hcne
      · rw [if_neg hqn] at h1s
        cases h1s

theorem alookup_amodify_isSome {α : Type} (k : Nat) (f : α → α) (m : List (Nat × α))
    (x : Nat) : (alookup x (amodify k f m)).isSome = (alookup x m).isSome := by
  rw [alookup_amodify]
  by_cases h : k = x
  · rw [if_pos h]; cases alookup x m <;> rfl
  · rw [if_neg h]

/-- One `create` step under its guard: it succeeds and preserves `Inv`/`Aux`. -/
theorem create_step (s : St) (p : Nat) (nm : List Nat) (t : Time)
    (hI : Inv s.files) (hA : Aux s) (hP : Pre s (.create p nm t)) :
    ∃ s' r, createOp s p nm t = some (s', r) ∧ Inv s'.files ∧ Aux s' := by
  obtain ⟨hval, halloc, pe, hpe, hdir, hfree⟩ := hP
  have hfresh : alookup s.counter s.files = none := by
    cases hlo : alookup s.counter s.files with
    | none => rfl
    | some e => exact absurd (hA.counter_big s.counter e hlo) (by omega)
  have hp_ne : p ≠ s.counter := fun h => by rw [h, hfresh] at hpe; cases hpe
  have hne0 : s.counter ≠ 0 := by have := hA.counter_ge2; omega
  have hne1 : s.counter ≠ 1 := by have := hA.counter_ge2; omega
  have hp0 : p ≠ 0 := fun h => by rw [h, hA.zero_absent] at hpe; cases hpe
  have halloc' : (allocateBlock (writeCounterCell s.disk s.counter)).isSome = true := by
    rw [allocateBlock_writeCounterCell_isSome]; exact halloc
  have hfit : (serializeFsEntryToDisk
      (FSEntry.new s.counter nm none p (getDefaultAttrs s.counter 0 false t))).length
      ≤ BLOCK_SIZE := by
    rw [serializeFsEntryToDisk_length]
    show 63 + (fixedName nm).length + _ ≤ _
    rw [fixedName_length]
    simp [FSEntry.new, MAX_NAME_SIZE, BLOCK_SIZE]
  obtain ⟨d1, idx, hpr, hge, hpush⟩ :=
    push_ok { s with counter := s.counter + 1, disk := writeCounterCell s.disk s.counter }
      s.counter nm none p (getDefaultAttrs s.counter 0 false t) halloc' hfit
  have hlook : alookup s.counter
      (amodify p (fun q => { q with children := q.children ++ [s.counter] })
        (ainsert s.counter
          (FSEntry.new s.counter nm none p (getDefaultAttrs s.counter 0 false t)) s.files)) =
      some (FSEntry.new s.counter nm none p (getDefaultAttrs s.counter 0 false t)) := by
    rw [alookup_amodify_ne _ _ hp_ne, alookup_ainsert_self]
  unfold createOp
  rw [if_neg (by simp [hval])]
  simp only [hpush, hlook]
  refine ⟨_, _, rfl, ?_, ?_⟩
  · exact inv_insert hI hfresh hne0 hne1 hpe hdir hfree hA.zero_absent
  · refine ⟨?_, ?_, ?_, ?_⟩
    · intro x e hx
      show x < s.counter + 1
      by_cases hxi : x = s.counter
      · omega
      · have hxold : ∃ eo, alookup x s.files = some eo := by
          by_cases hxp : x = p
          · exact ⟨pe, by rw [hxp]; exact hpe⟩
          · rw [show alookup x _ = alookup x s.files from by
              rw [alookup_amodify_ne _ _ (fun h => hxp h.symm),
                alookup_ainsert_ne _ _ (fun h => hxi h.symm)]] at hx
            exact ⟨e, hx⟩
        obtain ⟨eo, heo⟩ := hxold
        have := hA.counter_big x eo heo
        omega
    · show 2 ≤ s.counter + 1
      have := hA.counter_ge2; omega
    · intro x e hx
      show ∃ b, alookup x (ainsert s.counter idx s.inodeBlockTable) = some b
      by_cases hxi : x = s.counter
      · exact ⟨idx, by rw [hxi, alookup_ainsert_self]⟩
      · have hxold : ∃ eo, alookup x s.files = some eo := by
          by_cases hxp : x = p
          · exact ⟨pe, by rw [hxp]; exact hpe⟩
          · rw [show alookup x _ = alookup x s.files from by
              rw [alookup_amodify_ne _ _ (fun h => hxp h.symm),
                alookup_ainsert_ne _ _ (fun h => hxi h.symm)]] at hx
            exact ⟨e, hx⟩
        obtain ⟨eo, heo⟩ := hxold
        obtain ⟨b, hb⟩ := hA.table_tot x eo heo
        exact ⟨b, by rw [alookup_ainsert_ne _ _ (fun h => hxi h.symm)]; exact hb⟩
    · show alookup 0 _ = none
      rw [alookup_amodify_ne _ _ hp0, alookup_ainsert_ne _ _ hne0]
      exact hA.zero_absent

/-- One `mkdir` step under its guard. -/
theorem mkdir_step (s : St) (p : Nat) (nm : List Nat) (t : Time)
    (hI : Inv s.files) (hA : Aux s) (hP : Pre s (.mkdir p nm t)) :
    ∃ s' r, mkdirOp s p nm t = some (s', r) ∧ Inv s'.files ∧ Aux s' := by
  obtain ⟨hval, halloc, pe, hpe, hdir, hfree⟩ := hP
  have hfresh : alookup s.counter s.files = none := by
    cases hlo : alookup s.counter s.files with
    | none => rfl
    | some e => exact absurd (hA.counter_big s.counter e hlo) (by omega)
  have hp_ne : p ≠ s.counter := fun h => by rw [h, hfresh] at hpe; cases hpe
  have hne0 : s.counter ≠ 0 := by have := hA.counter_ge2; omega
  have hne1 : s.counter ≠ 1 := by have := hA.counter_ge2; omega
  have hp0 : p ≠ 0 := fun h => by rw [h, hA.zero_absent] at hpe; cases hpe
  have halloc' : (allocateBlock (writeCounterCell s.disk s.counter)).isSome = true := by
    rw [allocateBlock_writeCounterCell_isSome]; exact halloc
  have hfit : (serializeFsEntryToDisk
      (FSEntry.new s.counter nm none p (getDefaultAttrs s.counter 0 true t))).length
      ≤ BLOCK_SIZE := by
    rw [serializeFsEntryToDisk_length]
    show 63 + (fixedName nm).length + _ ≤ _
    rw [fixedName_length]
    simp [FSEntry.new, MAX_NAME_SIZE, BLOCK_SIZE]
  obtain ⟨d1, idx, hpr, hge, hpush⟩ :=
    push_ok { s with counter := s.counter + 1, disk := writeCounterCell s.disk s.counter }
      s.counter nm none p (getDefaultAttrs s.counter 0 true t) halloc' hfit
  have hlook : alookup s.counter
      (amodify p (fun q => { q with children := q.children ++ [s.counter] })
        (ainsert s.counter
          (FSEntry.new s.counter nm none p (getDefaultAttrs s.counter 0 true t)) s.files)) =
      some (FSEntry.new s.counter nm none p (getDefaultAttrs s.counter 0 true t)) := by
    rw [alookup_amodify_ne _ _ hp_ne, alookup_ainsert_self]
  unfold mkdirOp
  rw [if_neg (by simp [hval])]
  simp only [hpush, hlook]
  refine ⟨_, _, rfl, ?_, ?_⟩
  · exact inv_insert hI hfresh hne0 hne1 hpe hdir hfree hA.zero_absent
  · refine ⟨?_, ?_, ?_, ?_⟩
    · intro x e hx
      show x < s.counter + 1
      by_cases hxi : x = s.counter
      · omega
      · have hxold : ∃ eo, alookup x s.files = some eo := by
          by_cases hxp : x = p
          · exact ⟨pe, by rw [hxp]; exact hpe⟩
          · rw [show alookup x _ = alookup x s.files from by
              rw [alookup_amodify_ne _ _ (fun h => hxp h.symm),
                alookup_ainsert_ne _ _ (fun h => hxi h.symm)]] at hx
            exact ⟨e, hx⟩
        obtain ⟨eo, heo⟩ := hxold
        have := hA.counter_big x eo heo
        omega
    · show 2 ≤ s.counter + 1
      have := hA.counter_ge2; omega
    · intro x e hx
      show ∃ b, alookup x (ainsert s.counter idx s.inodeBlockTable) = some b
      by_cases hxi : x = s.counter
      · exact ⟨idx, by rw [hxi, alookup_ainsert_self]⟩
      · have hxold : ∃ eo, alookup x s.files = some eo := by
          by_cases hxp : x = p
          · exact ⟨pe, by rw [hxp]; exact hpe⟩
          · rw [show alookup x _ = alookup x s.files from by
              rw [alookup_amodify_ne _ _ (fun h => hxp h.symm),
                alookup_ainsert_ne _ _ (fun h => hxi h.symm)]] at hx
            exact ⟨e, hx⟩
        obtain ⟨eo, heo⟩ := hxold
        obtain ⟨b, hb⟩ := hA.table_tot x eo heo
        exact ⟨b, by rw [alookup_ainsert_ne _ _ (fun h => hxi h.symm)]; exact hb⟩
    · show alookup 0 _ = none
      rw [alookup_amodify_ne _ _ hp0, alookup_ainsert_ne _ _ hne0]
      exact hA.zero_absent

theorem isSome_of_amodify {α : Type} {p : Nat} {g : α → α} {m : List (Nat × α)}
    {x : Nat} {v : α} (hx : alookup x (amodify p g m) = some v) :
    ∃ w, alookup x m = some w := by
  have h1 : (alookup x m).isSome = true := by
    rw [← alookup_amodify_isSome p g m x, hx]; rfl
  exact Option.isSome_iff_exists.mp h1

theorem isSome_of_amodify3 {α : Type} {a b c : Nat} {f g h : α → α}
    {m : List (Nat × α)} {x : Nat} {v : α}
    (hx : alookup x (amodify a f (amodify b g (amodify c h m))) = some v) :
    ∃ w, alookup x m = some w := by
  have h1 : (alookup x m).isSome = true := by
    rw [← alookup_amodify_isSome c h m x, ← alookup_amodify_isSome b g _ x,
      ← alookup_amodify_isSome a f _ x, hx]
    rfl
  exact Option.isSome_iff_exists.mp h1

theorem lookup_of_aerase {α : Type} {t : Nat} {m : List (Nat × α)} {x : Nat} {v : α}
    (hx : alookup x (aerase t m) = some v) : x ≠ t ∧ alookup x m = some v := by
  rw [alookup_aerase] at hx
  by_cases h : t = x
  · rw [if_pos h] at hx; cases hx
  · rw [if_neg h] at hx; exact ⟨fun hh => h hh.symm, hx⟩

/-- One `rmdir` step: it always replies (every error path leaves the state
unchanged) and preserves `Inv`/`Aux`. -/
theorem rmdir_step (s : St) (p : Nat) (nm : List Nat)
    (hI : Inv s.files) (hA : Aux s) :
    ∃ s' r, applyOp s (.rmdir p nm) = some (s', r) ∧ Inv s'.files ∧ Aux s' := by
  refine ⟨(rmdirOp s p nm).1, (rmdirOp s p nm).2, rfl, ?_⟩
  unfold rmdirOp
  by_cases hv : isValidUtf8 nm = true
  · rw [if_neg (by simp [hv])]
    cases hpe : alookup p s.files with
    | none => exact ⟨hI, hA⟩
    | some parentFile =>
      dsimp only
      cases hfind : findNamed s.files parentFile.children nm with
      | none => exact ⟨hI, hA⟩
      | some t =>
        dsimp only
        cases hte : alookup t s.files with
        | none => exact ⟨hI, hA⟩
        | some child =>
          dsimp only
          by_cases hk : child.attrs.kind = FType.directory
          · rw [if_neg (not_not_intro hk)]
            by_cases hemp : child.children.isEmpty = true
            · rw [if_neg (by simp [hemp])]
              have hp0 : p ≠ 0 := fun h => by rw [h, hA.zero_absent] at hpe; cases hpe
              obtain ⟨htm, ce, hce, _⟩ := findNamed_spec hfind
              have hcet : ce = child := by
                rw [hte] at hce; injection hce with hh; exact hh.symm
              have hempty : child.children = [] := by
                cases hcc : child.children with
                | nil => rfl
                | cons a l => rw [hcc] at hemp; cases hemp
              have hInv' := inv_remove hI hpe htm hte hempty hA.zero_absent
              cases htbl : alookup t s.inodeBlockTable with
              | some blockIdx =>
                dsimp only
                refine ⟨hInv', ?_, hA.counter_ge2, ?_, ?_⟩
                · intro x e hx
                  obtain ⟨hxt, hx'⟩ := lookup_of_aerase hx
                  obtain ⟨eo, heo⟩ := isSome_of_amodify hx'
                  exact hA.counter_big x eo heo
                · intro x e hx
                  obtain ⟨hxt, hx'⟩ := lookup_of_aerase hx
                  obtain ⟨eo, heo⟩ := isSome_of_amodify hx'
                  obtain ⟨b, hb⟩ := hA.table_tot x eo heo
                  refine ⟨b, ?_⟩
                  show alookup x (aerase t s.inodeBlockTable) = some b
                  rw [alookup_aerase, if_neg (fun h => hxt h.symm)]
                  exact hb
                · show alookup 0 (aerase t (amodify p _ s.files)) = none
                  rw [alookup_aerase]
                  by_cases ht0 : t = 0
                  · rw [if_pos ht0]
                  · rw [if_neg ht0, alookup_amodify_ne _ _ hp0]
                    exact hA.zero_absent
              | none =>
                dsimp only
                refine ⟨hInv', ?_, hA.counter_ge2, ?_, ?_⟩
                · intro x e hx
                  obtain ⟨hxt, hx'⟩ := lookup_of_aerase hx
                  obtain ⟨eo, heo⟩ := isSome_of_amodify hx'
                  exact hA.counter_big x eo heo
                · intro x e hx
                  obtain ⟨hxt, hx'⟩ := lookup_of_aerase hx
                  obtain ⟨eo, heo⟩ := isSome_of_amodify hx'
                  exact hA.table_tot x eo heo
                · show alookup 0 (aerase t (amodify p _ s.files)) = none
                  rw [alookup_aerase]
                  by_cases ht0 : t = 0
                  · rw [if_pos ht0]
                  · rw [if_neg ht0, alookup_amodify_ne _ _ hp0]
                    exact hA.zero_absent
            · rw [if_pos (by simpa using hemp)]
              exact ⟨hI, hA⟩
          · rw [if_pos hk]
            exact ⟨hI, hA⟩
  · rw [if_pos (by simpa using hv)]
    exact ⟨hI, hA⟩

/-- One `rename` step under its guard. -/
theorem rename_step (s : St) (p : Nat) (nm : List Nat) (np : Nat) (nnm : List Nat)
    (hI : Inv s.files) (hA : Aux s) (hP : Pre s (.rename p nm np nnm)) :
    ∃ s' r, renameOp s p nm np nnm = some (s', r) ∧ Inv s'.files ∧ Aux s' := by
  obtain ⟨hv1, hv2, hmain⟩ := hP
  unfold renameOp
  rw [if_neg (by simp [hv1, hv2])]
  unfold renameM
  cases hpe : alookup p s.files with
  | none => exact ⟨s, .ok, rfl, hI, hA⟩
  | some parentFile =>
    dsimp only
    cases hfind : findNamed s.files parentFile.children nm with
    | none => exact ⟨s, .ok, rfl, hI, hA⟩
    | some c =>
      dsimp only
      obtain ⟨hnp0, hchain, npe, hnpe, hnpk, hfree⟩ := hmain parentFile c hpe hfind
      obtain ⟨hcm, ce, hce, _⟩ := findNamed_spec hfind
      obtain ⟨blk, hblk⟩ := hA.table_tot c ce hce
      have hc0 : c ≠ 0 := fun h => by rw [h, hA.zero_absent] at hce; cases hce
      have hp0 : p ≠ 0 := fun h => by rw [h, hA.zero_absent] at hpe; cases hpe
      simp only [hce, hblk]
      refine ⟨_, _, rfl, ?_, ?_⟩
      · exact inv_rename hI hpe hcm hce hnpe hnpk hnp0 hchain hfree hA.zero_absent
      · refine ⟨?_, hA.counter_ge2, ?_, ?_⟩
        · intro x e hx
          dsimp only at hx
          obtain ⟨eo, heo⟩ := isSome_of_amodify3 hx
          exact hA.counter_big x eo heo
        · intro x e hx
          dsimp only at hx
          obtain ⟨eo, heo⟩ := isSome_of_amodify3 hx
          exact hA.table_tot x eo heo
        · dsimp only
          rw [alookup_amodify_ne _ _ hnp0, alookup_amodify_ne _ _ hp0,
            alookup_amodify_ne _ _ hc0]
          exact hA.zero_absent

/-- Dispatch: every guarded step succeeds and preserves `Inv`/`Aux`. -/
theorem step_preserves (s : St) (op : FsOp) (hI : Inv s.files) (hA : Aux s)
    (hP : Pre s op) :
    ∃ s' r, applyOp s op = some (s', r) ∧ Inv s'.files ∧ Aux s' := by
  cases op with
  | create p nm t => exact create_step s p nm t hI hA hP
  | mkdir p nm t => exact mkdir_step s p nm t hI hA hP
  | rmdir p nm => exact rmdir_step s p nm hI hA
  | rename p nm np nnm => exact rename_step s p nm np nnm hI hA hP

/-- `Inv`/`Aux` states stay invariant along any guarded sequence, and every
step of it succeeds. -/
theorem seq_preserves (ops : List FsOp) : ∀ s : St, Inv s.files → Aux s →
    ValidSeq s ops → InvAlong s ops := by
  induction ops with
  | nil => intro s _ _ _; trivial
  | cons op ops ih =>
    intro s hI hA hV
    obtain ⟨hP, hV'⟩ := hV
    obtain ⟨s', r, happ, hI', hA'⟩ := step_preserves s op hI hA hP
    refine ⟨s', r, happ, hI', ih s' hI' hA' (hV' s' r happ)⟩

/-- The §3 invariants hold for a map holding only a root entry. -/
theorem inv_singleton_root (rootE : FSEntry) (hp : rootE.parent = 0)
    (hk : rootE.attrs.kind = .directory) (hc : rootE.children = []) :
    Inv [(1, rootE)] := by
  have hlook : ∀ x, alookup x [(1, rootE)] = if 1 = x then some rootE else none := by
    intro x; simp only [alookup]
  refine ⟨?_, ?_, ?_, ?_, ?_, ?_, ?_, ?_⟩
  · exact ⟨rootE, by rw [hlook 1, if_pos rfl], hp, hk⟩
  · intro i e he _
    rw [hlook i] at he
    by_cases h1 : 1 = i
    · exact h1.symm
    · rw [if_neg h1] at he; cases he
  · intro i e he hne
    rw [hlook i] at he
    by_cases h1 : 1 = i
    · exact absurd h1.symm hne
    · rw [if_neg h1] at he; cases he
  · intro i e he hpne
    rw [hlook i] at he
    by_cases h1 : 1 = i
    · rw [if_pos h1] at he
      injection he with he
      rw [← he, hp] at hpne
      exact absurd rfl hpne
    · rw [if_neg h1] at he; cases he
  · intro p pe c hpe hcm
    rw [hlook p] at hpe
    by_cases h1 : 1 = p
    · rw [if_pos h1] at hpe
      injection hpe with hpe
      rw [← hpe, hc] at hcm
      exact absurd hcm (List.not_mem_nil c)
    · rw [if_neg h1] at hpe; cases hpe
  · intro p pe hpe
    rw [hlook p] at hpe
    by_cases h1 : 1 = p
    · rw [if_pos h1] at hpe
      injection hpe with hpe
      rw [← hpe, hc]
      exact List.nodup_nil
    · rw [if_neg h1] at hpe; cases hpe
  · intro i e he
    rw [hlook i] at he
    by_cases h1 : 1 = i
    · rw [← h1]; exact Reaches.root
    · rw [if_neg h1] at he; cases he
  · intro p pe c₁ c₂ e₁ e₂ hpe hc₁ _ _ _ _
    rw [hlook p] at hpe
    by_cases h1 : 1 = p
    · rw [if_pos h1] at hpe
      injection hpe with hpe
      rw [← hpe, hc] at hc₁
      exact absurd hc₁ (List.not_mem_nil c₁)
    · rw [if_neg h1] at hpe; cases hpe

/-- The freshly mounted state satisfies `Inv` and `Aux`. -/
theorem mounted_inv (t0 : Time) (s0 : St)
    (h : mountedRoot t0 = some s0) : Inv s0.files ∧ Aux s0 := by
  have halloc : (allocateBlock (initializeNewDisk : DiskM)).isSome = true := by decide
  have hfit : (serializeFsEntryToDisk
      (FSEntry.new 1 rootNameBytes none 0 (getDefaultAttrs 1 0 true t0))).length
      ≤ BLOCK_SIZE := by
    rw [serializeFsEntryToDisk_length]
    show 63 + (fixedName rootNameBytes).length + _ ≤ _
    rw [fixedName_length]
    simp [FSEntry.new, MAX_NAME_SIZE, BLOCK_SIZE]
  obtain ⟨d1, idx, hpr, hge, hpush⟩ :=
    push_ok { files := [], inodeBlockTable := [], disk := initializeNewDisk,
              bitmap := readBitmapD initializeNewDisk, counter := 1 }
      1 rootNameBytes none 0 (getDefaultAttrs 1 0 true t0) halloc hfit
  simp only [mountedRoot] at h
  rw [hpush] at h
  dsimp only at h
  injection h with h
  subst h
  dsimp only
  have hfe : amodify 0 (fun q => { q with children := q.children ++ [1] })
      (ainsert 1 (FSEntry.new 1 rootNameBytes none 0 (getDefaultAttrs 1 0 true t0)) []) =
      [(1, FSEntry.new 1 rootNameBytes none 0 (getDefaultAttrs 1 0 true t0))] := rfl
  rw [hfe]
  refine ⟨inv_singleton_root _ rfl rfl rfl, ?_, ?_, ?_, ?_⟩
  · intro i e he
    simp only [alookup] at he
    by_cases h1 : 1 = i
    · show i < 2; omega
    · rw [if_neg h1] at he; cases he
  · show 2 ≤ 2; omega
  · intro i e he
    simp only [alookup] at he
    by_cases h1 : 1 = i
    · refine ⟨idx, ?_⟩
      show alookup i (ainsert 1 idx []) = some idx
      rw [← h1]
      exact alookup_ainsert_self 1 idx []
    · rw [if_neg h1] at he; cases he
  · rfl

/-- C2 (amended): starting from the mounted root-only state, along any
sequence of create/mkdir/rmdir/rename operations whose steps satisfy the
guards the handlers themselves never check (existing directory parent, a
free block, no sibling name clash for create/mkdir; an existing directory
destination outside the moved entry's subtree with no clashing sibling for
rename), every step succeeds and the §3 invariants hold after every step. -/
theorem c2_guarded_sequences_keep_invariants (t0 : Time) (s0 : St) (ops : List FsOp)
    (h0 : mountedRoot t0 = some s0) (hv : ValidSeq s0 ops) :
    Inv s0.files ∧ InvAlong s0 ops := by
  obtain ⟨hI, hA⟩ := mounted_inv t0 s0 h0
  exact ⟨hI, seq_preserves ops s0 hI hA hv⟩

/-- `stRoot` after `create(1, "a")` via the kernel dispatch. -/
def c2s1 : St := ((applyOp stRoot (.create 1 [97] epoch)).map Prod.fst).getD default

/-- `c2s1` after a second `create(1, "a")` — same name under the same parent. -/
def c2s2 : St := ((applyOp c2s1 (.create 1 [97] epoch)).map Prod.fst).getD default

/-- C2 counterexample: as literally stated — for *every* sequence of
operations — the claim is false: starting from the mounted root, two
create("a") calls under the root both succeed, and the resulting state
violates invariant 5 (distinct sibling names): the root's children 2 and 3
both carry the stored name "a". -/
theorem c2_duplicate_names_counterexample :
    (applyOp stRoot (.create 1 [97] epoch)).map Prod.fst = some c2s1 ∧
    (applyOp c2s1 (.create 1 [97] epoch)).map Prod.fst = some c2s2 ∧
    ¬ Inv c2s2.files := by
  refine ⟨by decide, by decide, ?_⟩
  intro hInv
  have h := hInv.names_distinct 1 ((alookup 1 c2s2.files).getD default) 2 3
    ((alookup 2 c2s2.files).getD default) ((alookup 3 c2s2.files).getD default)
    (by decide) (by decide) (by decide) (by decide) (by decide) (by decide)
  exact h (by decide)

/-- `c2s1` after `mkdir(1, "b")` — the directory gets inode 3. -/
def c2s1b : St := ((applyOp c2s1 (.mkdir 1 [98] epoch)).map Prod.fst).getD default

theorem c2_guarded_sequences_keep_invariants_witness :
    mountedRoot epoch = some stRoot ∧
    (Inv stRoot.files ∧
      InvAlong stRoot [.create 1 [97] epoch, .mkdir 1 [98] epoch,
        .rename 1 [97] 3 [99]]) := by
  have h0 : mountedRoot epoch = some stRoot := by decide
  have hpre1 : Pre stRoot (.create 1 [97] epoch) := by
    refine ⟨by decide, by decide, (alookup 1 stRoot.files).getD default,
      by decide, by decide, ?_⟩
    intro c ce hc _ _
    have hch : ((alookup 1 stRoot.files).getD default).children = [] := by decide
    rw [hch] at hc
    exact absurd hc (List.not_mem_nil c)
  have hpre2 : Pre c2s1 (.mkdir 1 [98] epoch) := by
    refine ⟨by decide, by decide, (alookup 1 c2s1.files).getD default,
      by decide, by decide, ?_⟩
    intro c ce hc _ hce
    have hch : ((alookup 1 c2s1.files).getD default).children = [2] := by decide
    rw [hch] at hc
    have hc2 : c = 2 := by
      cases hc with
      | head => rfl
      | tail _ h => exact absurd h (List.not_mem_nil c)
    subst hc2
    have h2 : alookup 2 c2s1.files = some ((alookup 2 c2s1.files).getD default) := by
      decide
    rw [h2] at hce
    injection hce with hce
    rw [← hce]
    decide
  have hpre3 : Pre c2s1b (.rename 1 [97] 3 [99]) := by
    refine ⟨by decide, by decide, ?_⟩
    intro pe c hpe hfind
    have h1 : alookup 1 c2s1b.files = some ((alookup 1 c2s1b.files).getD default) := by
      decide
    rw [h1] at hpe
    injection hpe with hpe
    have hfind' : findNamed c2s1b.files
        ((alookup 1 c2s1b.files).getD default).children [97] = some 2 := by decide
    rw [← hpe] at hfind
    rw [hfind'] at hfind
    injection hfind with hfind
    subst hfind
    refine ⟨by decide, ?_, (alookup 3 c2s1b.files).getD default,
      by decide, by decide, ?_⟩
    · intro hch
      cases hch with
      | step hpf hch2 =>
        have h3 : parentOf c2s1b.files 3 = some 1 := by decide
        rw [h3] at hpf
        injection hpf with hpf
        subst hpf
        cases hch2 with
        | step hpf2 hch3 =>
          have h1p : parentOf c2s1b.files 1 = some 0 := by decide
          rw [h1p] at hpf2
          injection hpf2 with hpf2
          subst hpf2
          cases hch3 with
          | step hpf3 _ =>
            have h0p : parentOf c2s1b.files 0 = none := by decide
            rw [h0p] at hpf3
            cases hpf3
    · intro c' ce hc' _ _
      have hch3 : ((alookup 3 c2s1b.files).getD default).children = [] := by decide
      rw [hch3] at hc'
      exact absurd hc' (List.not_mem_nil c')
  have hv : ValidSeq stRoot
      [.create 1 [97] epoch, .mkdir 1 [98] epoch, .rename 1 [97] 3 [99]] := by
    refine ⟨hpre1, ?_⟩
    intro s' r h
    have hs : s' = c2s1 := by
      have h1 : (applyOp stRoot (.create 1 [97] epoch)).map Prod.fst = some c2s1 := by
        decide
      rw [h] at h1
      exact Option.some.inj h1
    subst hs
    refine ⟨hpre2, ?_⟩
    intro s' r' h'
    have hs' : s' = c2s1b := by
      have h1 : (applyOp c2s1 (.mkdir 1 [98] epoch)).map Prod.fst = some c2s1b := by
        decide
      rw [h'] at h1
      exact Option.some.inj h1
    subst hs'
    refine ⟨hpre3, ?_⟩
    intro _ _ _
    trivial
  exact ⟨h0, c2_guarded_sequences_keep_invariants epoch stRoot _ h0 hv⟩

/-! ## The QR archive codec (`export_files_as_qr` / `import_files_from_qr`)

The physical QR layer (`binary_to_qr`/`qr_to_binary`, base64, PNG files) is
a faithful byte channel per block; an archive is a map from block number to
the decoded bytes (or a missing / undecodable block).  `DefaultHasher`
(`hash_passphrase`) and `serde_json::from_str` are external library
functions, abstracted as parameters `hashFn` and `parse`;
`serde_json::to_string` is modelled concretely below. -/

/-- `SerializableFileAttr` (lib.rs 31–52). -/
structure SerializableFileAttrM where
  ino : Nat
  size : Nat
  blocks : Nat
  atime_sec : Nat
  atime_nsec : Nat
  mtime_sec : Nat
  mtime_nsec : Nat
  ctime_sec : Nat
  ctime_nsec : Nat
  crtime_sec : Nat
  crtime_nsec : Nat
  kind : Nat
  perm : Nat
  nlink : Nat
  uid : Nat
  gid : Nat
  rdev : Nat
  flags : Nat
  blksize : Nat
deriving DecidableEq, Repr

/-- `SerializableFileAttr::from_file_attr` (lib.rs 55–85). -/
def fromFileAttr (a : FileAttrM) : SerializableFileAttrM :=
  { ino := a.ino, size := a.size, blocks := a.blocks
    atime_sec := a.atime.sec, atime_nsec := a.atime.nsec
    mtime_sec := a.mtime.sec, mtime_nsec := a.mtime.nsec
    ctime_sec := a.ctime.sec, ctime_nsec := a.ctime.nsec
    crtime_sec := a.crtime.sec, crtime_nsec := a.crtime.nsec
    kind := match a.kind with
      | .namedPipe => 1
      | .charDevice => 2
      | .blockDevice => 3
      | .directory => 4
      | .regularFile => 5
      | .symlink => 6
      | .socket => 7
    perm := a.perm, nlink := a.nlink, uid := a.uid, gid := a.gid
    rdev := a.rdev, flags := a.flags, blksize := a.blksize }

/-- `FileEntry` (lib.rs 126–133); `name` holds the string's UTF-8 bytes. -/
structure FileEntryM where
  inode : Nat
  name : List Nat
  qr_blocks : List Nat
  parent : Nat
  attrs : SerializableFileAttrM
deriving DecidableEq, Repr

/-- `FilesystemMetadata` (lib.rs 117–124). -/
structure FilesystemMetadataM where
  version : Nat
  files : List FileEntryM
  next_inode : Nat
  passphrase_hash : Option (List Nat)
deriving DecidableEq, Repr

/-- Decimal ASCII digits of `n`, as `serde_json` prints integers. -/
def jsonNat (n : Nat) : List Nat := (Nat.toDigits 10 n).map Char.toNat

/-- Lowercase hex digit byte. -/
def hexDigitByte (n : Nat) : Nat := if n < 10 then 48 + n else 87 + n

/-- `serde_json` string escaping, bytewise: quote and backslash escaped,
control bytes as \b \t \n \f \r or \u00xx, everything else verbatim —
in particular the bytes of the sentinel pass through unescaped. -/
def jsonEscapeByte (b : Nat) : List Nat :=
  if b = 34 then [92, 34]
  else if b = 92 then [92, 92]
  else if b = 8 then [92, 98]
  else if b = 9 then [92, 116]
  else if b = 10 then [92, 110]
  else if b = 12 then [92, 102]
  else if b = 13 then [92, 114]
  else if b < 32 then [92, 117, 48, 48, hexDigitByte (b / 16), hexDigitByte (b % 16)]
  else [b]

/-- A JSON string literal: quote, escaped bytes, quote. -/
def jsonString (s : List Nat) : List Nat := [34] ++ (s.map jsonEscapeByte).flatten ++ [34]

/-- Comma-joined JSON fragments. -/
def joinComma (l : List (List Nat)) : List Nat := (l.intersperse [44]).flatten

/-- The ASCII bytes of `\x7b"version":`. -/
def verKey : List Nat := [123, 34, 118, 101, 114, 115, 105, 111, 110, 34, 58]

/-- The ASCII bytes of `,"files":[`. -/
def filesKey : List Nat := [44, 34, 102, 105, 108, 101, 115, 34, 58, 91]

/-- The ASCII bytes of `],"next_inode":`. -/
def nextKey : List Nat := [93, 44, 34, 110, 101, 120, 116, 95, 105, 110, 111, 100, 101, 34, 58]

/-- The ASCII bytes of `,"passphrase_hash":`. -/
def hashKey : List Nat := [44, 34, 112, 97, 115, 115, 112, 104, 114, 97, 115, 101, 95, 104, 97, 115, 104, 34, 58]

/-- The ASCII bytes of `\x7b"inode":`. -/
def inodeKey : List Nat := [123, 34, 105, 110, 111, 100, 101, 34, 58]

/-- The ASCII bytes of `,"name":`. -/
def nameKey : List Nat := [44, 34, 110, 97, 109, 101, 34, 58]

/-- The ASCII bytes of `,"qr_blocks":[`. -/
def qrKey : List Nat := [44, 34, 113, 114, 95, 98, 108, 111, 99, 107, 115, 34, 58, 91]

/-- The ASCII bytes of `],"parent":`. -/
def parentKey : List Nat := [93, 44, 34, 112, 97, 114, 101, 110, 116, 34, 58]

/-- The ASCII bytes of `,"attrs":`. -/
def attrsKey : List Nat := [44, 34, 97, 116, 116, 114, 115, 34, 58]

/-- The ASCII bytes of `\x7b"ino":`. -/
def inoKey : List Nat := [123, 34, 105, 110, 111, 34, 58]

/-- The ASCII bytes of `,"size":`. -/
def sizeKey : List Nat := [44, 34, 115, 105, 122, 101, 34, 58]

/-- The ASCII bytes of `,"blocks":`. -/
def blocksKey : List Nat := [44, 34, 98, 108, 111, 99, 107, 115, 34, 58]

/-- The ASCII bytes of `,"atime_sec":`. -/
def atimeSecKey : List Nat := [44, 34, 97, 116, 105, 109, 101, 95, 115, 101, 99, 34, 58]

/-- The ASCII bytes of `,"atime_nsec":`. -/
def atimeNsecKey : List Nat := [44, 34, 97, 116, 105, 109, 101, 95, 110, 115, 101, 99, 34, 58]

/-- The ASCII bytes of `,"mtime_sec":`. -/
def mtimeSecKey : List Nat := [44, 34, 109, 116, 105, 109, 101, 95, 115, 101, 99, 34, 58]

/-- The ASCII bytes of `,"mtime_nsec":`. -/
def mtimeNsecKey : List Nat := [44, 34, 109, 116, 105, 109, 101, 95, 110, 115, 101, 99, 34, 58]

/-- The ASCII bytes of `,"ctime_sec":`. -/
def ctimeSecKey : List Nat := [44, 34, 99, 116, 105, 109, 101, 95, 115, 101, 99, 34, 58]

/-- The ASCII bytes of `,"ctime_nsec":`. -/
def ctimeNsecKey : List Nat := [44, 34, 99, 116, 105, 109, 101, 95, 110, 115, 101, 99, 34, 58]

/-- The ASCII bytes of `,"crtime_sec":`. -/
def crtimeSecKey : List Nat := [44, 34, 99, 114, 116, 105, 109, 101, 95, 115, 101, 99, 34, 58]

/-- The ASCII bytes of `,"crtime_nsec":`. -/
def crtimeNsecKey : List Nat := [44, 34, 99, 114, 116, 105, 109, 101, 95, 110, 115, 101, 99, 34, 58]

/-- The ASCII bytes of `,"kind":`. -/
def kindKey : List Nat := [44, 34, 107, 105, 110, 100, 34, 58]

/-- The ASCII bytes of `,"perm":`. -/
def permKey : List Nat := [44, 34, 112, 101, 114, 109, 34, 58]

/-- The ASCII bytes of `,"nlink":`. -/
def nlinkKey : List Nat := [44, 34, 110, 108, 105, 110, 107, 34, 58]

/-- The ASCII bytes of `,"uid":`. -/
def uidKey : List Nat := [44, 34, 117, 105, 100, 34, 58]

/-- The ASCII bytes of `,"gid":`. -/
def gidKey : List Nat := [44, 34, 103, 105, 100, 34, 58]

/-- The ASCII bytes of `,"rdev":`. -/
def rdevKey : List Nat := [44, 34, 114, 100, 101, 118, 34, 58]

/-- The ASCII bytes of `,"flags":`. -/
def flagsKey : List Nat := [44, 34, 102, 108, 97, 103, 115, 34, 58]

/-- The ASCII bytes of `,"blksize":`. -/
def blksizeKey : List Nat := [44, 34, 98, 108, 107, 115, 105, 122, 101, 34, 58]

/-- `serde_json::to_string` of a `SerializableFileAttr` (fields in
declaration order, compact form). -/
def jsonAttrs (a : SerializableFileAttrM) : List Nat :=
  inoKey ++ jsonNat a.ino ++ sizeKey ++ jsonNat a.size ++ blocksKey ++ jsonNat a.blocks ++
  atimeSecKey ++ jsonNat a.atime_sec ++ atimeNsecKey ++ jsonNat a.atime_nsec ++
  mtimeSecKey ++ jsonNat a.mtime_sec ++ mtimeNsecKey ++ jsonNat a.mtime_nsec ++
  ctimeSecKey ++ jsonNat a.ctime_sec ++ ctimeNsecKey ++ jsonNat a.ctime_nsec ++
  crtimeSecKey ++ jsonNat a.crtime_sec ++ crtimeNsecKey ++ jsonNat a.crtime_nsec ++
  kindKey ++ jsonNat a.kind ++ permKey ++ jsonNat a.perm ++ nlinkKey ++ jsonNat a.nlink ++
  uidKey ++ jsonNat a.uid ++ gidKey ++ jsonNat a.gid ++ rdevKey ++ jsonNat a.rdev ++
  flagsKey ++ jsonNat a.flags ++ blksizeKey ++ jsonNat a.blksize ++ [125]

/-- `serde_json::to_string` of a `FileEntry`. -/
def jsonFileEntry (e : FileEntryM) : List Nat :=
  inodeKey ++ jsonNat e.inode ++ nameKey ++ jsonString e.name ++
  qrKey ++ joinComma (e.qr_blocks.map jsonNat) ++ parentKey ++ jsonNat e.parent ++
  attrsKey ++ jsonAttrs e.attrs ++ [125]

/-- The serialized metadata up to (excluding) the optional hash field. -/
def jsonMetaCore (m : FilesystemMetadataM) : List Nat :=
  verKey ++ jsonNat m.version ++ filesKey ++ joinComma (m.files.map jsonFileEntry) ++
  nextKey ++ jsonNat m.next_inode

/-- `serde_json::to_string(&FilesystemMetadata)`; the `passphrase_hash`
field is skipped entirely when `None` (`skip_serializing_if`). -/
def jsonMetadata (m : FilesystemMetadataM) : List Nat :=
  jsonMetaCore m ++
    (match m.passphrase_hash with
     | some h => hashKey ++ jsonString h
     | none => []) ++ [125]

/-- Fuel-driven body of `split_data_for_qr` (lib.rs 577–590). -/
def splitGo : Nat → List Nat → List (List Nat)
  | _, [] => []
  | 0, _ => []
  | fuel + 1, d => d.take 512 :: splitGo fuel (d.drop 512)

/-- `split_data_for_qr`: 512-byte chunks, last one shorter. -/
def splitDataForQr (data : List Nat) : List (List Nat) := splitGo data.length data

/-- Number of data chunks an entry contributes. -/
def chunkCountOf (f : FSEntry) : Nat :=
  match f.data with
  | some d => (splitDataForQr d).length
  | none => 0

/-- The initial per-file metadata entry of the export (lib.rs 649–655):
displayed name, `qr_blocks` a zero vector of the chunk count. -/
def initFileEntryM (f : FSEntry) : FileEntryM :=
  { inode := f.inode, name := fixedNameToStr f.name
    qr_blocks := List.replicate (chunkCountOf f) 0
    parent := f.parent, attrs := fromFileAttr f.attrs }

/-- Phase two of the export (lib.rs 677–693): walk the entries in order,
emit each file's data chunks at consecutive block numbers and record those
numbers in its `qr_blocks`. -/
def assignDataBlocks : List FSEntry → Nat → List FileEntryM × List (List Nat) × Nat
  | [], cb => ([], [], cb)
  | f :: rest, cb =>
    match f.data with
    | some d =>
      let chunks := splitDataForQr d
      let fe := { initFileEntryM f with qr_blocks := List.range' cb chunks.length }
      let out := assignDataBlocks rest (cb + chunks.length)
      (fe :: out.1, chunks ++ out.2.1, out.2.2)
    | none =>
      let out := assignDataBlocks rest cb
      (initFileEntryM f :: out.1, out.2.1, out.2.2)

/-- The UTF-8 bytes of the sentinel `|PASSPHRASE:`. -/
def sentinelBytes : List Nat := [124, 80, 65, 83, 83, 80, 72, 82, 65, 83, 69, 58]

/-- `export_files_as_qr` (lib.rs 625–721), as the final block sequence:
initial metadata chunks at blocks `0..k`, data chunks after them, then the
final metadata (with filled `qr_blocks` and the appended
`|PASSPHRASE:<passphrase>` suffix) re-chunked — its first `k` chunks
overwrite the directory blocks (any stale initial chunks beyond its length
remain), its extra chunks are appended at the end.  `entries` is the
`HashMap` iteration order; `hash` is `hash_passphrase(passphrase)`. -/
def exportArchive (entries : List FSEntry) (nextInode : Nat)
    (hash : List Nat) (passphrase : List Nat) : List (List Nat) :=
  let md0 : FilesystemMetadataM :=
    { version := 1, files := entries.map initFileEntryM
      next_inode := nextInode, passphrase_hash := some hash }
  let mchunks := splitDataForQr (jsonMetadata md0)
  let k := mchunks.length
  let out := assignDataBlocks entries k
  let mdF : FilesystemMetadataM :=
    { version := 1, files := out.1, next_inode := nextInode
      passphrase_hash := some hash }
  let fchunks := splitDataForQr (jsonMetadata mdF ++ sentinelBytes ++ passphrase)
  (fchunks.take k ++ mchunks.drop (min k fchunks.length)) ++ out.2.1 ++ fchunks.drop k

/-- A block read attempt: the PNG file may be absent, undecodable, or give
back the block's bytes. -/
inductive BlockRead where
  | missing
  | unreadable
  | ok (data : List Nat)

/-- The errors the import can return. -/
inductive ImportErr where
  | decodeFail (block : Nat)
  | wrongPassphrase
  | corruptMetadata
  | tooManyBlocks
  | delimiterNotFound
deriving DecidableEq, Repr

/-- `blocks` as an archive: block `i` decodes to `blocks[i]`, any block
past the end is a missing file. -/
def archiveOf (blocks : List (List Nat)) : Nat → BlockRead :=
  fun i => if h : i < blocks.length then .ok (blocks.get ⟨i, h⟩) else .missing

/-- `pat` is a prefix of the first list. -/
def startsWithB : List Nat → List Nat → Bool
  | _, [] => true
  | [], _ :: _ => false
  | a :: l, b :: p => (a == b) && startsWithB l p

/-- Scan for the first occurrence of `pat`, reporting its byte index. -/
def findSubGo (pat : List Nat) : List Nat → Nat → Option Nat
  | [], i => if startsWithB [] pat then some i else none
  | l@(_ :: rest), i => if startsWithB l pat then some i else findSubGo pat rest (i + 1)

/-- `str::find` for an ASCII-leading pattern: the first byte index where
`pat` occurs in `l` (on valid UTF-8 these are exactly the char-boundary
matches `str::find` reports, since the sentinel starts with ASCII `|`). -/
def findSub (l pat : List Nat) : Option Nat := findSubGo pat l 0

/-- Whether the stored-hash warning fires (lib.rs 758–764): only when a
hash is stored and differs from `hash_passphrase(expected)`. -/
def hashWarnOf (md : FilesystemMetadataM) (hashFn : List Nat → List Nat)
    (expected : List Nat) : Bool :=
  match md.passphrase_hash with
  | some stored => stored ≠ hashFn expected
  | none => false

/-- One accumulation check of the import loop (lib.rs 746–778): on valid
UTF-8 with the sentinel found, split at it; a wrong suffix returns the
passphrase error, a right one parses the prefix (failure is the metadata
error; the stored-hash comparison only sets the warning flag).  `none`
means: keep reading. -/
def gateCheck (acc expected : List Nat)
    (parse : List Nat → Option FilesystemMetadataM)
    (hashFn : List Nat → List Nat) :
    Option (Except ImportErr (FilesystemMetadataM × Bool)) :=
  if isValidUtf8 acc then
    match findSub acc sentinelBytes with
    | some pos =>
      some (if acc.drop (pos + sentinelBytes.length) = expected then
              match parse (acc.take pos) with
              | some md => .ok (md, hashWarnOf md hashFn expected)
              | none => .error .corruptMetadata
            else .error .wrongPassphrase)
    | none => none
  else none

/-- The import's block-reading loop (lib.rs 734–795): read block
`cb`, re-check the whole accumulated byte string, and stop with an error
once more than 1000 blocks were read.  A missing block breaks the loop and
(the sentinel not having been found) reports the delimiter error; an
undecodable block is a decode error.  The fuel only bounds recursion and
never runs out when it starts at 1002. -/
def importGateLoop (archive : Nat → BlockRead) (expected : List Nat)
    (parse : List Nat → Option FilesystemMetadataM)
    (hashFn : List Nat → List Nat) :
    List Nat → Nat → Nat → Except ImportErr (FilesystemMetadataM × Bool)
  | _, _, 0 => .error .tooManyBlocks
  | acc, cb, fuel + 1 =>
    match archive cb with
    | .missing => .error .delimiterNotFound
    | .unreadable => .error (.decodeFail cb)
    | .ok data =>
      match gateCheck (acc ++ data) expected parse hashFn with
      | some r => r
      | none =>
        if cb + 1 > 1000 then .error .tooManyBlocks
        else importGateLoop archive expected parse hashFn (acc ++ data) (cb + 1) fuel

/-- The passphrase gate of `import_files_from_qr`: the loop from empty
accumulator and block 0.  On success it yields the parsed metadata and the
hash-warning flag; everything after the gate proceeds with that metadata. -/
def importGate (archive : Nat → BlockRead) (expected : List Nat)
    (parse : List Nat → Option FilesystemMetadataM)
    (hashFn : List Nat → List Nat) : Except ImportErr (FilesystemMetadataM × Bool) :=
  importGateLoop archive expected parse hashFn [] 0 1002

theorem importGateLoop_hit (archive : Nat → BlockRead) (expected : List Nat)
    (parse : List Nat → Option FilesystemMetadataM) (hashFn : List Nat → List Nat)
    (acc : List Nat) (cb fuel : Nat) (data : List Nat)
    (r : Except ImportErr (FilesystemMetadataM × Bool))
    (hb : archive cb = .ok data)
    (hchk : gateCheck (acc ++ data) expected parse hashFn = some r) :
    importGateLoop archive expected parse hashFn acc cb (fuel + 1) = r := by
  simp only [importGateLoop, hb, hchk]

theorem gateCheck_mismatch {acc expected : List Nat} {pos : Nat}
    (parse : List Nat → Option FilesystemMetadataM) (hashFn : List Nat → List Nat)
    (hutf : isValidUtf8 acc = true)
    (hfind : findSub acc sentinelBytes = some pos)
    (hne : acc.drop (pos + sentinelBytes.length) ≠ expected) :
    gateCheck acc expected parse hashFn = some (.error .wrongPassphrase) := by
  unfold gateCheck
  rw [if_pos hutf, hfind]
  dsimp only
  rw [if_neg hne]

theorem gateCheck_match {acc expected : List Nat} {pos : Nat}
    (parse : List Nat → Option FilesystemMetadataM) (hashFn : List Nat → List Nat)
    (hutf : isValidUtf8 acc = true)
    (hfind : findSub acc sentinelBytes = some pos)
    (heq : acc.drop (pos + sentinelBytes.length) = expected) :
    gateCheck acc expected parse hashFn =
      some (match parse (acc.take pos) with
            | some md => .ok (md, hashWarnOf md hashFn expected)
            | none => .error .corruptMetadata) := by
  unfold gateCheck
  rw [if_pos hutf, hfind]
  dsimp only
  rw [if_pos heq]

theorem gateCheck_hashFn (acc expected : List Nat)
    (parse : List Nat → Option FilesystemMetadataM) (h1 h2 : List Nat → List Nat) :
    (gateCheck acc expected parse h1).map (Except.map Prod.fst) =
    (gateCheck acc expected parse h2).map (Except.map Prod.fst) := by
  unfold gateCheck
  by_cases hutf : isValidUtf8 acc = true
  · rw [if_pos hutf, if_pos hutf]
    cases hf : findSub acc sentinelBytes with
    | none => rfl
    | some pos =>
      dsimp only
      by_cases hd : acc.drop (pos + sentinelBytes.length) = expected
      · rw [if_pos hd, if_pos hd]
        cases parse (acc.take pos) with
        | some md => rfl
        | none => rfl
      · rw [if_neg hd, if_neg hd]
  · rw [if_neg hutf, if_neg hutf]

theorem importGateLoop_hashFn (archive : Nat → BlockRead) (expected : List Nat)
    (parse : List Nat → Option FilesystemMetadataM) (h1 h2 : List Nat → List Nat) :
    ∀ (fuel : Nat) (acc : List Nat) (cb : Nat),
      (importGateLoop archive expected parse h1 acc cb fuel).map Prod.fst =
      (importGateLoop archive expected parse h2 acc cb fuel).map Prod.fst := by
  intro fuel
  induction fuel with
  | zero => intro acc cb; rfl
  | succ fuel ih =>
    intro acc cb
    simp only [importGateLoop]
    cases hb : archive cb with
    | missing => rfl
    | unreadable => rfl
    | ok data =>
      dsimp only
      have hg := gateCheck_hashFn (acc ++ data) expected parse h1 h2
      cases h1c : gateCheck (acc ++ data) expected parse h1 with
      | some r1 =>
        rw [h1c] at hg
        cases h2c : gateCheck (acc ++ data) expected parse h2 with
        | some r2 =>
          rw [h2c] at hg
          simp only [Option.map_some'] at hg
          dsimp only
          injection hg
        | none => rw [h2c] at hg; simp at hg
      | none =>
        cases h2c : gateCheck (acc ++ data) expected parse h2 with
        | some r2 => rw [h1c, h2c] at hg; simp at hg
        | none =>
          dsimp only
          by_cases hcb : cb + 1 > 1000
          · rw [if_pos hcb, if_pos hcb]
          · rw [if_neg hcb, if_neg hcb]
            exact ih (acc ++ data) (cb + 1)

/-- C3: at the import's passphrase gate, when the accumulated block bytes
are valid UTF-8 and contain the sentinel, a suffix differing from the
expected passphrase fails with the wrong-passphrase error; a matching
suffix passes the gate (the result is then decided by metadata parsing
alone, the stored-hash comparison only computing the warning flag); and
the gate's success or failure never depends on the hash function at all. -/
theorem c3_passphrase_gate :
    (∀ (archive : Nat → BlockRead) (expected : List Nat)
        (parse : List Nat → Option FilesystemMetadataM)
        (hashFn : List Nat → List Nat) (acc data : List Nat) (cb fuel pos : Nat),
      archive cb = .ok data →
      isValidUtf8 (acc ++ data) = true →
      findSub (acc ++ data) sentinelBytes = some pos →
      (acc ++ data).drop (pos + sentinelBytes.length) ≠ expected →
      importGateLoop archive expected parse hashFn acc cb (fuel + 1) =
        .error .wrongPassphrase) ∧
    (∀ (archive : Nat → BlockRead) (expected : List Nat)
        (parse : List Nat → Option FilesystemMetadataM)
        (hashFn : List Nat → List Nat) (acc data : List Nat) (cb fuel pos : Nat),
      archive cb = .ok data →
      isValidUtf8 (acc ++ data) = true →
      findSub (acc ++ data) sentinelBytes = some pos →
      (acc ++ data).drop (pos + sentinelBytes.length) = expected →
      importGateLoop archive expected parse hashFn acc cb (fuel + 1) =
        match parse ((acc ++ data).take pos) with
        | some md => .ok (md, hashWarnOf md hashFn expected)
        | none => .error .corruptMetadata) ∧
    (∀ (archive : Nat → BlockRead) (expected : List Nat)
        (parse : List Nat → Option FilesystemMetadataM)
        (hashFn hashFn' : List Nat → List Nat) (fuel : Nat) (acc : List Nat) (cb : Nat),
      (importGateLoop archive expected parse hashFn acc cb fuel).map Prod.fst =
      (importGateLoop archive expected parse hashFn' acc cb fuel).map Prod.fst) := by
  refine ⟨?_, ?_, ?_⟩
  · intro archive expected parse hashFn acc data cb fuel pos hb hutf hfind hne
    exact importGateLoop_hit archive expected parse hashFn acc cb fuel data _ hb
      (gateCheck_mismatch parse hashFn hutf hfind hne)
  · intro archive expected parse hashFn acc data cb fuel pos hb hutf hfind heq
    exact importGateLoop_hit archive expected parse hashFn acc cb fuel data _ hb
      (gateCheck_match parse hashFn hutf hfind heq)
  · intro archive expected parse hashFn hashFn' fuel acc cb
    exact importGateLoop_hashFn archive expected parse hashFn hashFn' fuel acc cb

theorem c3_passphrase_gate_witness :
    importGate (archiveOf [[88] ++ sentinelBytes ++ [113]]) [112]
        (fun _ => none) (fun _ => []) = .error .wrongPassphrase ∧
    importGate (archiveOf [[48] ++ sentinelBytes ++ [112]]) [112]
        (fun _ => some ⟨0, [], 0, none⟩) (fun _ => [9]) =
      .ok (⟨0, [], 0, none⟩, false) ∧
    (importGateLoop (archiveOf [[88] ++ sentinelBytes ++ [113]]) [112]
        (fun _ => none) (fun _ => []) [] 0 1002).map Prod.fst =
      (importGateLoop (archiveOf [[88] ++ sentinelBytes ++ [113]]) [112]
        (fun _ => none) (fun _ => [7]) [] 0 1002).map Prod.fst := by
  obtain ⟨h1, h2, h3⟩ := c3_passphrase_gate
  refine ⟨?_, ?_, ?_⟩
  · exact h1 (archiveOf [[88] ++ sentinelBytes ++ [113]]) [112]
      (fun _ => none) (fun _ => []) [] ([88] ++ sentinelBytes ++ [113]) 0 1001 1
      rfl (by decide) (by decide) (by decide)
  · exact h2 (archiveOf [[48] ++ sentinelBytes ++ [112]]) [112]
      (fun _ => some ⟨0, [], 0, none⟩) (fun _ => [9]) []
      ([48] ++ sentinelBytes ++ [112]) 0 1001 1
      rfl (by decide) (by decide) (by decide)
  · exact h3 (archiveOf [[88] ++ sentinelBytes ++ [113]]) [112]
      (fun _ => none) (fun _ => []) (fun _ => [7]) 1002 [] 0

theorem splitGo_fuel : ∀ (n : Nat) (l : List Nat) (m : Nat),
    l.length ≤ n → l.length ≤ m → splitGo n l = splitGo m l := by
  intro n
  induction n with
  | zero =>
    intro l m h1 _
    cases l with
    | nil => cases m <;> rfl
    | cons a t => simp at h1
  | succ n ih =>
    intro l m h1 h2
    cases l with
    | nil => cases m <;> rfl
    | cons a t =>
      cases m with
      | zero => simp at h2
      | succ m =>
        show (a :: t).take 512 :: splitGo n ((a :: t).drop 512) =
          (a :: t).take 512 :: splitGo m ((a :: t).drop 512)
        congr 1
        apply ih
        · rw [List.length_drop]
          simp only [List.length_cons] at h1 ⊢
          omega
        · rw [List.length_drop]
          simp only [List.length_cons] at h2 ⊢
          omega

theorem splitDataForQr_of_ne_nil {l : List Nat} (h : l ≠ []) :
    splitDataForQr l = l.take 512 :: splitDataForQr (l.drop 512) := by
  cases l with
  | nil => exact absurd rfl h
  | cons a t =>
    show (a :: t).take 512 :: splitGo t.length ((a :: t).drop 512) =
      (a :: t).take 512 :: splitGo ((a :: t).drop 512).length ((a :: t).drop 512)
    congr 1
    apply splitGo_fuel
    · rw [List.length_drop]
      simp only [List.length_cons]
      omega
    · exact Nat.le_refl _

/-- For a two-entry state without file data, the export's first block is
the first 512 bytes of the serialized metadata — which end before the
hash-string field, so they are the same for every hash value. -/
theorem exportArchive_head (e1 e2 : FSEntry) (hd1 : e1.data = none) (hd2 : e2.data = none)
    (nextInode : Nat) (H pass : List Nat)
    (hlen : 512 ≤ (jsonMetaCore
      { version := 1, files := [initFileEntryM e1, initFileEntryM e2],
        next_inode := nextInode, passphrase_hash := none } ++ hashKey ++ [34]).length) :
    ∃ rest, exportArchive [e1, e2] nextInode H pass =
      ((jsonMetaCore
          { version := 1, files := [initFileEntryM e1, initFileEntryM e2],
            next_inode := nextInode, passphrase_hash := none } ++
          hashKey ++ [34]).take 512) :: rest := by
  set A := jsonMetaCore
      { version := 1, files := [initFileEntryM e1, initFileEntryM e2],
        next_inode := nextInode, passphrase_hash := none : FilesystemMetadataM } ++
      hashKey ++ [34] with hA
  set B := (H.map jsonEscapeByte).flatten ++ [34, 125] with hB
  have hjs : jsonMetadata
      { version := 1, files := [initFileEntryM e1, initFileEntryM e2],
        next_inode := nextInode, passphrase_hash := some H } = A ++ B := by
    rw [hA, hB]
    simp [jsonMetadata, jsonMetaCore, jsonString, List.append_assoc]
  have hABne : A ++ B ≠ [] := by
    intro hc
    have hlc := congrArg List.length hc
    rw [List.length_append] at hlc
    simp only [List.length_nil] at hlc
    omega
  have hfne : A ++ (B ++ (sentinelBytes ++ pass)) ≠ [] := by
    intro hc
    have hlc := congrArg List.length hc
    rw [List.length_append] at hlc
    simp only [List.length_nil] at hlc
    omega
  have hassign : ∀ cb : Nat, assignDataBlocks [e1, e2] cb =
      ([initFileEntryM e1, initFileEntryM e2], [], cb) := by
    intro cb
    simp only [assignDataBlocks, hd1, hd2]
  simp only [exportArchive, List.map]
  rw [hassign]
  dsimp only
  rw [hjs]
  rw [List.append_assoc (A ++ B) sentinelBytes pass,
    List.append_assoc A B (sentinelBytes ++ pass)]
  rw [splitDataForQr_of_ne_nil hABne, splitDataForQr_of_ne_nil hfne]
  rw [List.take_append_of_le_length hlen, List.take_append_of_le_length hlen]
  rw [List.length_cons, List.take_succ_cons]
  simp only [List.cons_append]
  exact ⟨_, rfl⟩

theorem archiveOf_zero (b : List Nat) (rest : List (List Nat)) :
    archiveOf (b :: rest) 0 = .ok b := by
  unfold archiveOf
  rw [dif_pos (by simp : 0 < (b :: rest).length)]
  rfl

/-- The name whose UTF-8 bytes embed the sentinel: `|PASSPHRASE:a`. -/
def c1name : List Nat := sentinelBytes ++ [97]

/-- The mounted state after `create(1, "|PASSPHRASE:a")`. -/
def stC1 : St := ((applyOp stRoot (.create 1 c1name epoch)).map Prod.fst).getD default

/-- The root entry of `stC1`. -/
def c1rootE : FSEntry := (alookup 1 stC1.files).getD default

/-- The created file entry of `stC1` (inode 2). -/
def c1fileE : FSEntry := (alookup 2 stC1.files).getD default

/-- The export/import passphrase `p`. -/
def c1pass : List Nat := [112]

/-- C1 fails in the code (divergence from §6's escaping requirement): the
state reached from the mounted root by one `create` of a file named
`|PASSPHRASE:a` exports to an archive that the import rejects as
WRONG_PASSPHRASE under the very same passphrase — for every hash function,
every metadata parser, and both iteration orders of the two-entry map —
because the serializer does not escape the sentinel inside the name, and
the import splits at its first occurrence, which lies inside the name in
the first block. -/
theorem c1_export_import_roundtrip_fails
    (hashFn : List Nat → List Nat) (parse : List Nat → Option FilesystemMetadataM)
    (entries : List FSEntry)
    (hord : entries = [c1rootE, c1fileE] ∨ entries = [c1fileE, c1rootE]) :
    (applyOp stRoot (.create 1 c1name epoch)).map Prod.fst = some stC1 ∧
    alookup 1 stC1.files = some c1rootE ∧
    alookup 2 stC1.files = some c1fileE ∧
    importGate (archiveOf (exportArchive entries stC1.counter (hashFn c1pass) c1pass))
        c1pass parse hashFn = .error .wrongPassphrase := by
  refine ⟨by decide, by decide, by decide, ?_⟩
  cases hord with
  | inl h =>
    subst h
    obtain ⟨rest, hexp⟩ := exportArchive_head c1rootE c1fileE (by decide) (by decide)
      stC1.counter (hashFn c1pass) c1pass (by decide)
    rw [hexp]
    show importGateLoop _ c1pass parse hashFn [] 0 (1001 + 1) = _
    refine importGateLoop_hit _ c1pass parse hashFn [] 0 1001 _ _ (archiveOf_zero _ rest) ?_
    rw [List.nil_append]
    exact gateCheck_mismatch parse hashFn (by decide)
      (show findSub _ sentinelBytes = some 326 by decide) (by decide)
  | inr h =>
    subst h
    obtain ⟨rest, hexp⟩ := exportArchive_head c1fileE c1rootE (by decide) (by decide)
      stC1.counter (hashFn c1pass) c1pass (by decide)
    rw [hexp]
    show importGateLoop _ c1pass parse hashFn [] 0 (1001 + 1) = _
    refine importGateLoop_hit _ c1pass parse hashFn [] 0 1001 _ _ (archiveOf_zero _ rest) ?_
    rw [List.nil_append]
    exact gateCheck_mismatch parse hashFn (by decide)
      (show findSub _ sentinelBytes = some 41 by decide) (by decide)

theorem c1_export_import_roundtrip_fails_witness :
    (applyOp stRoot (.create 1 c1name epoch)).map Prod.fst = some stC1 ∧
    alookup 1 stC1.files = some c1rootE ∧
    alookup 2 stC1.files = some c1fileE ∧
    importGate (archiveOf (exportArchive [c1rootE, c1fileE] stC1.counter [] c1pass))
        c1pass (fun _ => none) (fun _ => []) = .error .wrongPassphrase :=
  c1_export_import_roundtrip_fails (fun _ => []) (fun _ => none)
    [c1rootE, c1fileE] (Or.inl rfl)

end QRFS
